import Mathlib

/- Verification of `src/vector.h` from martinovalekse/Vector: a dynamic array
   `Vector<T>` built on top of a raw storage block `RawMemory<T>`.

   Shallow embedding notes:
   * A `RawMemory<T>` block is a list of slots; `none` models a raw
     (uninitialized) slot, `some x` a slot holding a constructed element with
     value `x`.  The list length is the block's capacity.
   * Element values are modelled as plain values; move construction and move
     assignment coincide with copy at the value level (faithful for the scalar
     element types the repository's spec uses in its scenarios), so a
     moved-from slot keeps its value and stays constructed.
   * Reading a slot that is out of range or not constructed is undefined
     behaviour in the C++ source; operations that may do so return `Option`,
     with `none` modelling any such access.  The debug `assert`s of
     `RawMemory::operator[]` during `Erase` are traced separately by
     `Vector.eraseAssertsOk`, and the heap effect of `RawMemory`'s move
     assignment is traced separately by the allocation-id model at the end of
     the definitions section.
-/

namespace CppVec

/-- `RawMemory<T>` (vector.h lines 11-86): owns `capacity_` slots of raw
    storage.  `buffer.length` plays the role of `capacity_`; a `none` entry is
    raw memory, a `some` entry is a constructed element living in the block. -/
structure RawMemory (T : Type) where
  buffer : List (Option T)
deriving DecidableEq

variable {T : Type}

/-- `RawMemory::Capacity()` (line 71). -/
def RawMemory.Capacity (m : RawMemory T) : Nat := m.buffer.length

/-- `RawMemory(size_t capacity)` via `Allocate` (lines 16-19, 76-78):
    `n` raw slots, none of them constructed. -/
def RawMemory.Allocate (T : Type) (n : Nat) : RawMemory T :=
  ⟨List.replicate n none⟩

/-- Reading the constructed element at slot `i` (`data_[i]` used as the source
    of a copy or move).  `none` when the slot is out of range or holds no
    constructed element — both undefined behaviour in the C++ source. -/
def RawMemory.readAt (m : RawMemory T) (i : Nat) : Option T :=
  match m.buffer[i]? with
  | some (some x) => some x
  | _ => none

/-- Writing value `x` into slot `i`: covers both placement-new construction
    into a raw slot and assignment to a constructed slot (their value-level
    effect is the same in this model). -/
def RawMemory.writeAt (m : RawMemory T) (i : Nat) (x : T) : RawMemory T :=
  ⟨m.buffer.set i (some x)⟩

/-- `std::destroy_n(&data_[i], k)` / `DestroyN` (lines 236-240): slots
    `[i, i+k)` become raw again. -/
def RawMemory.destroyN (m : RawMemory T) (i : Nat) : Nat → RawMemory T
  | 0 => m
  | k + 1 => RawMemory.destroyN ⟨m.buffer.set i none⟩ (i + 1) k

/-- `std::uninitialized_copy_n` / `std::uninitialized_move_n` / `std::copy_n`:
    copy `c` elements from `src` starting at slot `si` into `dst` starting at
    slot `di`.  All three C++ primitives coincide at the value level of this
    model (move-from leaves the source slot constructed with its old value for
    the scalar element types modelled here). -/
def copyRange (src : RawMemory T) (si c : Nat) (dst : RawMemory T) (di : Nat) :
    Option (RawMemory T) :=
  match c with
  | 0 => some dst
  | cc + 1 => do
    let x ← src.readAt si
    copyRange src (si + 1) cc (dst.writeAt di x) (di + 1)

/-- The forward loop of `std::move(first, last, dst)`: `c` remaining steps,
    each moving slot `first` to slot `dst` and advancing both. -/
def moveFwdGo (m : RawMemory T) (first dst : Nat) : Nat → Option (RawMemory T)
  | 0 => some m
  | c + 1 => do
    let x ← m.readAt first
    moveFwdGo (m.writeAt dst x) (first + 1) (dst + 1) c

/-- `std::move(first, last, dst)` over slots of a single block (used by
    `Erase`, line 219).  A call with `first > last` is undefined behaviour in
    the source, modelled as `none`. -/
def stdMoveRange (m : RawMemory T) (first last dst : Nat) :
    Option (RawMemory T) :=
  if first ≤ last then moveFwdGo m first dst (last - first) else none

/-- The backward loop of `std::move_backward(first, last, dlast)`: `c`
    remaining steps, each moving slot `last - 1` to slot `dlast - 1` and
    retreating both. -/
def moveBwdGo (m : RawMemory T) (last dlast : Nat) : Nat → Option (RawMemory T)
  | 0 => some m
  | c + 1 => do
    let x ← m.readAt (last - 1)
    moveBwdGo (m.writeAt (dlast - 1) x) (last - 1) (dlast - 1) c

/-- `std::move_backward(first, last, dlast)` over slots of a single block
    (used by `NoMemoryRelocateEmplace`, line 298). -/
def stdMoveBackward (m : RawMemory T) (first last dlast : Nat) :
    Option (RawMemory T) :=
  if first ≤ last then moveBwdGo m last dlast (last - first) else none

/-- `std::uninitialized_value_construct_n(&data_[i], k)` with the element
    type's default value standing for value-initialization. -/
def uninitValueConstructN [Inhabited T] (m : RawMemory T) (i : Nat) :
    Nat → RawMemory T
  | 0 => m
  | k + 1 => uninitValueConstructN (m.writeAt i default) (i + 1) k

/-- `Vector<T>` (vector.h lines 88-303): a block and the count of live
    elements occupying its front part `[0, size)`. -/
structure Vector (T : Type) where
  data : RawMemory T
  size : Nat
deriving DecidableEq

/-- `Vector::Size()` (line 144). -/
def Vector.Size (v : Vector T) : Nat := v.size

/-- `Vector::Capacity()` (line 148). -/
def Vector.Capacity (v : Vector T) : Nat := v.data.Capacity

/-- `Vector()` (line 94): empty, null zero-capacity block. -/
def Vector.mkDefault (T : Type) : Vector T := ⟨⟨[]⟩, 0⟩

/-- `Vector(size_t size)` (lines 96-98): block of exactly `n` slots, `n`
    value-constructed elements. -/
def Vector.mkSized (T : Type) [Inhabited T] (n : Nat) : Vector T :=
  ⟨uninitValueConstructN (RawMemory.Allocate T n) 0 n, n⟩

/-- `Vector(const Vector&)` (lines 100-105): block of exactly `other.Size()`
    slots, elements copy-constructed from `other`. -/
def Vector.copyCtor (other : Vector T) : Option (Vector T) := do
  let nd ← copyRange other.data 0 other.size (RawMemory.Allocate T other.size) 0
  some ⟨nd, other.size⟩

/-- `Vector(Vector&&)` (lines 107-109): result is (new vector, what `other`
    becomes).  The block is stolen; `other` is left with a null zero-capacity
    block and size 0 (`std::exchange(other.size_, -0)`). -/
def Vector.moveCtor (other : Vector T) : Vector T × Vector T :=
  (⟨other.data, other.size⟩, ⟨⟨[]⟩, 0⟩)

/-- The first two lines of `MemoryRelocateEmplace` (lines 269-270):
    `RawMemory<T> new_data(size_ == 0 ? 1 : size_ * 2);` followed by
    `new (&new_data[position_num]) T(std::forward<Args>(args)...);` — the new
    element is constructed directly at its final slot of the fresh block. -/
def Vector.relocateNewBlock (v : Vector T) (p : Nat) (x : T) : RawMemory T :=
  (RawMemory.Allocate T (if v.size = 0 then 1 else v.size * 2)).writeAt p x

/-- `Vector::MemoryRelocateEmplace(position_num, args...)` (lines 267-289).
    The `if constexpr` move branch and copy branch coincide in this model. -/
def Vector.MemoryRelocateEmplace (v : Vector T) (p : Nat) (x : T) :
    Option (Vector T) :=
  -- if (position_num != 0)
  --   std::uninitialized_move_n(data_.GetAddress(), position_num, new_data.GetAddress());
  (if p ≠ 0 then copyRange v.data 0 p (v.relocateNewBlock p x) 0
   else some (v.relocateNewBlock p x)).bind fun nd2 =>
  -- if (size_ > position_num)
  --   std::uninitialized_move_n(&data_[position_num], size_ - position_num, &new_data[position_num + 1]);
  (if v.size > p then copyRange v.data p (v.size - p) nd2 (p + 1)
   else some nd2).bind fun nd3 =>
  -- std::destroy_n(data_.GetAddress(), size_); data_.Swap(new_data); ++size_;
  -- (the old block is dropped, the new one adopted)
  some ⟨nd3, v.size + 1⟩

/-- `Vector::NoMemoryRelocateEmplace(position_num, args...)` (lines 291-302). -/
def Vector.NoMemoryRelocateEmplace (v : Vector T) (p : Nat) (x : T) :
    Option (Vector T) :=
  if p = v.size then
    -- new (&data_[position_num]) T(std::forward<Args>(args)...);
    some ⟨v.data.writeAt p x, v.size + 1⟩
  else do
    -- T temp(std::forward<Args>(args)...);
    -- new (&data_[size_]) T(std::move(data_[size_ - 1]));
    let lastElem ← v.data.readAt (v.size - 1)
    let d1 := v.data.writeAt v.size lastElem
    -- std::move_backward(&data_[position_num], &data_[size_ - 1], &data_[size_]);
    let d2 ← stdMoveBackward d1 p (v.size - 1) v.size
    -- data_[position_num] = std::move(temp);
    some ⟨d2.writeAt p x, v.size + 1⟩

/-- `Vector::Emplace(pos, args...)` (lines 204-213); `p` is
    `pos - begin()`. -/
def Vector.Emplace (v : Vector T) (p : Nat) (x : T) : Option (Vector T) :=
  if v.size = v.Capacity then v.MemoryRelocateEmplace p x
  else v.NoMemoryRelocateEmplace p x

/-- `Vector::EmplaceBack(args...)` (lines 190-194): `Emplace(end(), ...)`,
    where `end() - begin() = size_`. -/
def Vector.EmplaceBack (v : Vector T) (x : T) : Option (Vector T) :=
  v.Emplace v.size x

/-- `Vector::PushBack(value)` (lines 175-181): delegates to `EmplaceBack`. -/
def Vector.PushBack (v : Vector T) (x : T) : Option (Vector T) :=
  v.EmplaceBack x

/-- `Vector::Insert(pos, value)` (lines 226-231): delegates to `Emplace`. -/
def Vector.Insert (v : Vector T) (p : Nat) (x : T) : Option (Vector T) :=
  v.Emplace p x

/-- `Vector::PopBack()` (lines 183-188). -/
def Vector.PopBack (v : Vector T) : Vector T :=
  if v.size ≠ 0 then ⟨v.data.destroyN (v.size - 1) 1, v.size - 1⟩ else v

/-- `Vector::Erase(pos)` (lines 215-224); `p` is `pos - begin()`.  The state
    effect is modelled; the returned iterator `&data_[position_num]` has no
    state effect (its debug assertion is traced by `eraseAssertsOk`). -/
def Vector.Erase (v : Vector T) (p : Nat) : Option (Vector T) :=
  if v.size ≠ 0 then do
    -- data_[position_num] = std::move(data_[position_num + 1]);
    let x ← v.data.readAt (p + 1)
    let d1 := v.data.writeAt p x
    -- std::move(&data_[position_num + 1], &data_[size_ - 1], &data_[position_num]);
    let d2 ← stdMoveRange d1 (p + 1) (v.size - 1) p
    -- std::destroy_n(&data_[size_ - 1], 1); --size_;
    some ⟨d2.destroyN (v.size - 1) 1, v.size - 1⟩
  else some v

/-- `Vector::Reserve(new_capacity)` (lines 249-261).  The `if constexpr`
    move/copy transfer branches coincide in this model. -/
def Vector.Reserve (v : Vector T) (n : Nat) : Option (Vector T) :=
  if n ≤ v.Capacity then some v
  else do
    let nd ← copyRange v.data 0 v.size (RawMemory.Allocate T n) 0
    some ⟨nd, v.size⟩

/-- `Vector::Resize(new_size)` (lines 161-173). -/
def Vector.Resize [Inhabited T] (v : Vector T) (n : Nat) : Option (Vector T) :=
  if n > v.Capacity then do
    let v1 ← v.Reserve n
    some ⟨uninitValueConstructN v1.data v1.size (n - v1.size), n⟩
  else if n < v.size then
    some ⟨v.data.destroyN n (v.size - n), n⟩
  else
    some ⟨uninitValueConstructN v.data v.size (n - v.size), n⟩

/-- `Vector::Swap(other)` (lines 242-247): result is (what `*this` becomes,
    what `other` becomes). -/
def Vector.Swap (v other : Vector T) : Vector T × Vector T :=
  (⟨other.data, other.size⟩, ⟨v.data, v.size⟩)

/-- The `this != &rhs` body of `operator=(const Vector&)` (lines 117-129). -/
def Vector.copyAssignNonSelf (v rhs : Vector T) : Option (Vector T) :=
  if rhs.size > v.Capacity then
    -- Vector rhs_copy(rhs); Swap(rhs_copy);
    Vector.copyCtor rhs
  else if rhs.size < v.size then do
    -- auto end = std::copy_n(rhs.data_.GetAddress(), rhs.size_, data_.GetAddress());
    let d1 ← copyRange rhs.data 0 rhs.size v.data 0
    -- std::destroy_n(end, size_ - rhs.size_);  size_ = rhs.size_;
    some ⟨d1.destroyN rhs.size (v.size - rhs.size), rhs.size⟩
  else do
    -- auto end = std::copy_n(rhs.data_.GetAddress(), size_, data_.GetAddress());
    let d1 ← copyRange rhs.data 0 v.size v.data 0
    -- std::uninitialized_copy_n(rhs.data_.GetAddress() + size_, rhs.size_ - size_, end);
    let d2 ← copyRange rhs.data v.size (rhs.size - v.size) d1 v.size
    -- size_ = rhs.size_;
    some ⟨d2, rhs.size⟩

/-- `Vector::operator=(const Vector&)` (lines 115-132); `isSelf` models the
    `this != &rhs` identity check, so a call with `isSelf = true` carries
    `rhs = v`. -/
def Vector.copyAssign (isSelf : Bool) (v rhs : Vector T) : Option (Vector T) :=
  if isSelf then some v else v.copyAssignNonSelf rhs

/-- `Vector::operator=(Vector&&)` (lines 134-138), value-level effect: result
    is (what `*this` becomes, what `rhs` becomes).  `data_ = std::move(rhs.data_)`
    overwrites the block handle with `rhs`'s and nulls `rhs`'s;
    `size_ = std::exchange(rhs.size_, -0)`.  Whether the old block is
    deallocated is traced by the allocation-id model below. -/
def Vector.moveAssign (v rhs : Vector T) : Vector T × Vector T :=
  (⟨rhs.data, rhs.size⟩, ⟨⟨[]⟩, 0⟩)

/-- The `assert(index < capacity_)` checks of `RawMemory::operator[]`
    (line 54) executed during `Vector::Erase(pos)` (lines 215-224) with
    `p = pos - begin()`, in source order: line 218 evaluates `data_[p + 1]`
    and `data_[p]`; line 219 evaluates `&data_[p + 1]`, `&data_[size_ - 1]`
    and `&data_[p]`; line 220 evaluates `&data_[size_ - 1]`; line 223
    (`return &data_[position_num]`) evaluates `&data_[p]` (capacity is
    unchanged by the decrement of `size_`).  `Erase` never calls
    `RawMemory::operator+` (line 40), whose `offset <= capacity_` check is
    therefore vacuous for it. -/
def Vector.eraseAssertsOk (v : Vector T) (p : Nat) : Bool :=
  if v.size ≠ 0 then
    (decide (p + 1 < v.Capacity) && decide (p < v.Capacity)) &&
    ((decide (p + 1 < v.Capacity) && decide (v.size - 1 < v.Capacity)) &&
      decide (p < v.Capacity)) &&
    decide (v.size - 1 < v.Capacity) &&
    decide (p < v.Capacity)
  else decide (p < v.Capacity)

/-! Allocation-id model, used to settle what `operator=(Vector&&)` does to the
    current block.  Blocks are identified by numeric ids; `alive` is the list
    of ids of blocks currently allocated (`operator new` adds one,
    `operator delete` removes one). -/

/-- A `RawMemory` handle in the allocation-id model: `buffer_` is a block id
    or null, plus `capacity_`. -/
structure AllocRawMemory where
  blockId : Option Nat
  cap : Nat
deriving DecidableEq

/-- `RawMemory::Deallocate(buf)` (lines 80-82): `operator delete` removes the
    block from the allocated set (no-op on null). -/
def deallocateBlock (alive : List Nat) (b : Option Nat) : List Nat :=
  match b with
  | none => alive
  | some i => alive.erase i

/-- `RawMemory::operator=(RawMemory&& rhs)` (lines 28-34) exactly as written:
    `buffer_ = rhs.GetAddress(); rhs.buffer_ = nullptr;
    capacity_ = rhs.Capacity(); rhs.capacity_ = 0;`.  No `Deallocate` call
    occurs on this path, so `alive` is returned unchanged.  Result:
    (alive, what `*this` becomes, what `rhs` becomes). -/
def rawMemoryMoveAssign (alive : List Nat) (lhs rhs : AllocRawMemory) :
    List Nat × AllocRawMemory × AllocRawMemory :=
  (alive, ⟨rhs.blockId, rhs.cap⟩, ⟨none, 0⟩)

/-- A `Vector` in the allocation-id model: its block handle and `size_`. -/
structure AllocVector where
  data : AllocRawMemory
  size : Nat
deriving DecidableEq

/-- `Vector::operator=(Vector&&)` (lines 134-138) in the allocation-id model:
    `data_ = std::move(rhs.data_); size_ = std::exchange(rhs.size_, -0);`.
    Result: (alive, what `*this` becomes, what `rhs` becomes). -/
def vectorMoveAssign (alive : List Nat) (v rhs : AllocVector) :
    List Nat × AllocVector × AllocVector :=
  let r := rawMemoryMoveAssign alive v.data rhs.data
  (r.1, ⟨r.2.1, rhs.size⟩, ⟨r.2.2, 0⟩)

/-! Abstraction layer: a well-formed vector's block is its live values in the
    front slots `[0, size)` followed by raw slots. -/

/-- A block holding the constructed values `l` in its first `l.length` slots
    followed by `k` raw slots. -/
def canon (l : List T) (k : Nat) : List (Option T) :=
  l.map some ++ List.replicate k none

/-- The container invariant of `Vector<T>`: elements at indices `[0, size)`
    are constructed and hold the values of `l`, indices `[size, capacity)` are
    raw memory. -/
def Vector.Models (v : Vector T) (l : List T) : Prop :=
  ∃ k, v.data.buffer = canon l k ∧ v.size = l.length

/-- Well-formedness: some list of live values occupies exactly the front part
    of the block. -/
def Vector.WF (v : Vector T) : Prop := ∃ l, v.Models l

/-- One step of a `PushBack`/`PopBack` call sequence. -/
inductive PushPop (T : Type) where
  | push (x : T)
  | pop
deriving DecidableEq

/-- Running a sequence of `PushBack`/`PopBack` calls on a vector. -/
def Vector.applyOps (v : Vector T) : List (PushPop T) → Option (Vector T)
  | [] => some v
  | PushPop.push x :: rest => do
      let v1 ← v.PushBack x
      v1.applyOps rest
  | PushPop.pop :: rest => (v.PopBack).applyOps rest

/-- The running net count of pushes minus pops, clamped at 0 at every step
    (natural-number subtraction). -/
def netSize (start : Nat) : List (PushPop T) → Nat
  | [] => start
  | PushPop.push _ :: rest => netSize (start + 1) rest
  | PushPop.pop :: rest => netSize (start - 1) rest

/-- `k` successive `PushBack`s into a default-constructed `Vector<size_t>`. -/
def pushIterNat : Nat → Option (Vector Nat)
  | 0 => some (Vector.mkDefault Nat)
  | k + 1 => do
      let v ← pushIterNat k
      v.PushBack k

end CppVec

namespace CppVec

/-! Helper lemmas: pointwise characterizations of the block primitives. -/

theorem canon_length (l : List T) (k : Nat) :
    (canon l k).length = l.length + k := by
  simp [canon]

theorem canon_getElem? (l : List T) (k t : Nat) :
    (canon l k)[t]? = if t < l.length then (l[t]?).map some
      else if t < l.length + k then some none else none := by
  rw [canon, List.getElem?_append, List.length_map]
  by_cases h1 : t < l.length
  · simp [h1]
  · simp only [if_neg h1, List.getElem?_replicate]
    by_cases h2 : t - l.length < k
    · rw [if_pos h2, if_pos (by omega)]
    · rw [if_neg h2, if_neg (by omega)]

theorem readAt_canon (l : List T) (k i : Nat) :
    RawMemory.readAt ⟨canon l k⟩ i = l[i]? := by
  simp only [RawMemory.readAt, canon_getElem?]
  by_cases h1 : i < l.length
  · rw [if_pos h1, List.getElem?_eq_getElem h1]
    rfl
  · rw [if_neg h1, List.getElem?_eq_none (by omega)]
    by_cases h2 : i < l.length + k
    · rw [if_pos h2]
    · rw [if_neg h2]

theorem readAt_lt_length (m : RawMemory T) (i : Nat) (x : T)
    (h : m.readAt i = some x) : i < m.buffer.length := by
  by_contra hc
  simp only [RawMemory.readAt, List.getElem?_eq_none (by omega : m.buffer.length ≤ i)] at h
  exact Option.noConfusion h

theorem writeAt_length (m : RawMemory T) (i : Nat) (x : T) :
    (m.writeAt i x).buffer.length = m.buffer.length := by
  simp [RawMemory.writeAt]

theorem writeAt_getElem? (m : RawMemory T) (i : Nat) (x : T) (t : Nat) :
    (m.writeAt i x).buffer[t]? =
      if i = t then (if i < m.buffer.length then some (some x) else none)
      else m.buffer[t]? := by
  simp [RawMemory.writeAt, List.getElem?_set]

theorem readAt_writeAt_ne (m : RawMemory T) (i j : Nat) (x : T) (h : i ≠ j) :
    (m.writeAt i x).readAt j = m.readAt j := by
  simp [RawMemory.readAt, writeAt_getElem?, h]

theorem destroyN_length (m : RawMemory T) (i c : Nat) :
    (m.destroyN i c).buffer.length = m.buffer.length := by
  induction c generalizing m i with
  | zero => rfl
  | succ c ih =>
    rw [RawMemory.destroyN, ih]
    simp

theorem destroyN_getElem? (m : RawMemory T) (i c t : Nat) :
    (m.destroyN i c).buffer[t]? =
      if i ≤ t ∧ t < i + c ∧ t < m.buffer.length then some none
      else m.buffer[t]? := by
  induction c generalizing m i with
  | zero =>
    rw [RawMemory.destroyN, if_neg (by omega)]
  | succ c ih =>
    rw [RawMemory.destroyN, ih]
    simp only [List.length_set, List.getElem?_set]
    by_cases hw : i ≤ t ∧ t < i + (c + 1) ∧ t < m.buffer.length
    · rw [if_pos hw]
      by_cases hw2 : i + 1 ≤ t ∧ t < i + 1 + c ∧ t < m.buffer.length
      · rw [if_pos hw2]
      · rw [if_neg hw2, if_pos (by omega : i = t), if_pos (by omega)]
    · rw [if_neg hw]
      rw [if_neg (by omega)]
      by_cases he : i = t
      · rw [if_pos he, if_neg (by omega), List.getElem?_eq_none (by omega)]
      · rw [if_neg he]

theorem valueConstructN_length [Inhabited T] (m : RawMemory T) (i c : Nat) :
    (uninitValueConstructN m i c).buffer.length = m.buffer.length := by
  induction c generalizing m i with
  | zero => rfl
  | succ c ih =>
    rw [uninitValueConstructN, ih, writeAt_length]

theorem valueConstructN_getElem? [Inhabited T] (m : RawMemory T) (i c t : Nat) :
    (uninitValueConstructN m i c).buffer[t]? =
      if i ≤ t ∧ t < i + c ∧ t < m.buffer.length then some (some default)
      else m.buffer[t]? := by
  induction c generalizing m i with
  | zero =>
    rw [uninitValueConstructN, if_neg (by omega)]
  | succ c ih =>
    rw [uninitValueConstructN, ih]
    rw [writeAt_length]
    simp only [writeAt_getElem?]
    by_cases hw : i ≤ t ∧ t < i + (c + 1) ∧ t < m.buffer.length
    · rw [if_pos hw]
      by_cases hw2 : i + 1 ≤ t ∧ t < i + 1 + c ∧ t < m.buffer.length
      · rw [if_pos hw2]
      · rw [if_neg hw2, if_pos (by omega : i = t), if_pos (by omega)]
    · rw [if_neg hw, if_neg (by omega)]
      by_cases he : i = t
      · rw [if_pos he, if_neg (by omega), List.getElem?_eq_none (by omega)]
      · rw [if_neg he]

theorem copyRange_length (src : RawMemory T) (si c : Nat) (dst : RawMemory T)
    (di : Nat) (r : RawMemory T) (h : copyRange src si c dst di = some r) :
    r.buffer.length = dst.buffer.length := by
  induction c generalizing si dst di with
  | zero =>
    rw [copyRange] at h
    cases h
    rfl
  | succ c ih =>
    cases hx : src.readAt si with
    | none =>
      rw [copyRange, hx] at h
      exact Option.noConfusion h
    | some x =>
      rw [copyRange, hx] at h
      have h2 : copyRange src (si + 1) c (dst.writeAt di x) (di + 1) = some r := h
      rw [ih _ _ _ h2, writeAt_length]

theorem copyRange_spec (src : RawMemory T) (si c : Nat) (dst : RawMemory T)
    (di : Nat) (h : ∀ j, j < c → (src.readAt (si + j)).isSome) :
    ∃ d, copyRange src si c dst di = some d ∧
      d.buffer.length = dst.buffer.length ∧
      ∀ t, d.buffer[t]? =
        if di ≤ t ∧ t < di + c ∧ t < dst.buffer.length
        then some (src.readAt (si + (t - di)))
        else dst.buffer[t]? := by
  induction c generalizing si dst di with
  | zero =>
    exact ⟨dst, rfl, rfl, fun t => by rw [if_neg (by omega)]⟩
  | succ c ih =>
    obtain ⟨x, hx⟩ := Option.isSome_iff_exists.mp (h 0 (Nat.succ_pos c))
    rw [Nat.add_zero] at hx
    obtain ⟨d, hd, hdl, hdp⟩ := ih (si + 1) (dst.writeAt di x) (di + 1)
      (fun j hj => by
        have hh := h (j + 1) (by omega)
        rwa [show si + (j + 1) = si + 1 + j by omega] at hh)
    refine ⟨d, ?_, ?_, ?_⟩
    · rw [copyRange, hx]
      exact hd
    · rw [hdl, writeAt_length]
    · intro t
      rw [hdp t, writeAt_length]
      by_cases h1 : di + 1 ≤ t ∧ t < di + 1 + c ∧ t < dst.buffer.length
      · rw [if_pos h1, if_pos (by omega)]
        rw [show si + 1 + (t - (di + 1)) = si + (t - di) by omega]
      · rw [if_neg h1, writeAt_getElem?]
        by_cases h2 : di = t
        · subst h2
          by_cases h3 : di < dst.buffer.length
          · rw [if_pos rfl, if_pos h3, if_pos (by omega)]
            rw [show si + (di - di) = si by omega, hx]
          · rw [if_pos rfl, if_neg h3, if_neg (by omega),
              List.getElem?_eq_none (by omega)]
        · rw [if_neg h2, if_neg (by omega)]

theorem moveFwdGo_length (m : RawMemory T) (f d c : Nat) (r : RawMemory T)
    (h : moveFwdGo m f d c = some r) : r.buffer.length = m.buffer.length := by
  induction c generalizing m f d with
  | zero =>
    rw [moveFwdGo] at h
    cases h
    rfl
  | succ c ih =>
    cases hx : m.readAt f with
    | none =>
      rw [moveFwdGo, hx] at h
      exact Option.noConfusion h
    | some x =>
      rw [moveFwdGo, hx] at h
      have h2 : moveFwdGo (m.writeAt d x) (f + 1) (d + 1) c = some r := h
      rw [ih _ _ _ h2, writeAt_length]

theorem moveBwdGo_length (m : RawMemory T) (la dl c : Nat) (r : RawMemory T)
    (h : moveBwdGo m la dl c = some r) : r.buffer.length = m.buffer.length := by
  induction c generalizing m la dl with
  | zero =>
    rw [moveBwdGo] at h
    cases h
    rfl
  | succ c ih =>
    cases hx : m.readAt (la - 1) with
    | none =>
      rw [moveBwdGo, hx] at h
      exact Option.noConfusion h
    | some x =>
      rw [moveBwdGo, hx] at h
      have h2 : moveBwdGo (m.writeAt (dl - 1) x) (la - 1) (dl - 1) c = some r := h
      rw [ih _ _ _ h2, writeAt_length]

theorem moveFwdGo_shift (c : Nat) : ∀ (p : Nat) (m : RawMemory T),
    (∀ j, j < c → (m.readAt (p + 1 + j)).isSome) →
    ∃ d, moveFwdGo m (p + 1) p c = some d ∧
      d.buffer.length = m.buffer.length ∧
      ∀ t, d.buffer[t]? =
        if p ≤ t ∧ t < p + c ∧ t < m.buffer.length
        then some (m.readAt (t + 1))
        else m.buffer[t]? := by
  induction c with
  | zero =>
    intro p m _
    exact ⟨m, rfl, rfl, fun t => by rw [if_neg (by omega)]⟩
  | succ c ih =>
    intro p m h
    obtain ⟨x, hx⟩ := Option.isSome_iff_exists.mp (h 0 (Nat.succ_pos c))
    rw [Nat.add_zero] at hx
    have hplen : p + 1 < m.buffer.length := readAt_lt_length m (p + 1) x hx
    obtain ⟨d, hd, hdl, hdp⟩ := ih (p + 1) (m.writeAt p x)
      (fun j hj => by
        rw [readAt_writeAt_ne m p (p + 1 + 1 + j) x (by omega)]
        have hh := h (j + 1) (by omega)
        rwa [show p + 1 + (j + 1) = p + 1 + 1 + j by omega] at hh)
    refine ⟨d, ?_, ?_, ?_⟩
    · rw [moveFwdGo, hx]
      exact hd
    · rw [hdl, writeAt_length]
    · intro t
      rw [hdp t, writeAt_length]
      by_cases h1 : p + 1 ≤ t ∧ t < p + 1 + c ∧ t < m.buffer.length
      · rw [if_pos h1, if_pos (by omega),
          readAt_writeAt_ne m p (t + 1) x (by omega)]
      · rw [if_neg h1, writeAt_getElem?]
        by_cases h2 : p = t
        · subst h2
          rw [if_pos rfl, if_pos (by omega), if_pos (by omega), hx]
        · rw [if_neg h2, if_neg (by omega)]

theorem moveBwdGo_shift (c : Nat) : ∀ (la : Nat) (m : RawMemory T),
    c ≤ la →
    (∀ j, j < c → (m.readAt (la - 1 - j)).isSome) →
    ∃ d, moveBwdGo m la (la + 1) c = some d ∧
      d.buffer.length = m.buffer.length ∧
      ∀ t, d.buffer[t]? =
        if la + 1 - c ≤ t ∧ t < la + 1 ∧ t < m.buffer.length
        then some (m.readAt (t - 1))
        else m.buffer[t]? := by
  induction c with
  | zero =>
    intro la m _ _
    exact ⟨m, rfl, rfl, fun t => by rw [if_neg (by omega)]⟩
  | succ c ih =>
    intro la m hc h
    obtain ⟨x, hx⟩ := Option.isSome_iff_exists.mp (h 0 (Nat.succ_pos c))
    rw [Nat.sub_zero] at hx
    obtain ⟨d, hd, hdl, hdp⟩ := ih (la - 1) (m.writeAt la x) (by omega)
      (fun j hj => by
        rw [readAt_writeAt_ne m la (la - 1 - 1 - j) x (by omega)]
        have hh := h (j + 1) (by omega)
        rwa [show la - 1 - (j + 1) = la - 1 - 1 - j by omega] at hh)
    refine ⟨d, ?_, ?_, ?_⟩
    · rw [show la - 1 + 1 = la by omega] at hd
      rw [moveBwdGo, hx]
      exact hd
    · rw [hdl, writeAt_length]
    · intro t
      rw [hdp t, writeAt_length]
      by_cases h1 : la - 1 + 1 - c ≤ t ∧ t < la - 1 + 1 ∧ t < m.buffer.length
      · rw [if_pos h1, if_pos (by omega),
          readAt_writeAt_ne m la (t - 1) x (by omega)]
      · rw [if_neg h1, writeAt_getElem?]
        by_cases h2 : la = t
        · subst h2
          by_cases h3 : la < m.buffer.length
          · rw [if_pos rfl, if_pos h3, if_pos (by omega), hx]
          · rw [if_pos rfl, if_neg h3, if_neg (by omega),
              List.getElem?_eq_none (by omega)]
        · rw [if_neg h2, if_neg (by omega)]

/-! Helper lemmas about the abstraction layer. -/

theorem insertList_getElem? (l : List T) (p : Nat) (x : T) (hp : p ≤ l.length)
    (t : Nat) :
    (l.take p ++ x :: l.drop p)[t]? =
      if t < p then l[t]? else if t = p then some x else l[t - 1]? := by
  rw [List.getElem?_append, List.length_take, show min p l.length = p by omega]
  by_cases h1 : t < p
  · rw [if_pos h1, if_pos h1, List.getElem?_take, if_pos h1]
  · rw [if_neg h1, if_neg h1]
    by_cases h2 : t = p
    · subst h2
      rw [if_pos rfl, Nat.sub_self]
      simp
    · rw [if_neg h2, show t - p = (t - p - 1) + 1 by omega,
        List.getElem?_cons_succ, List.getElem?_drop,
        show p + (t - p - 1) = t - 1 by omega]

theorem insertList_length (l : List T) (p : Nat) (x : T) (hp : p ≤ l.length) :
    (l.take p ++ x :: l.drop p).length = l.length + 1 := by
  simp
  omega

theorem models_capacity (v : Vector T) (l : List T) (k : Nat)
    (hb : v.data.buffer = canon l k) : v.Capacity = l.length + k := by
  rw [Vector.Capacity, RawMemory.Capacity, hb, canon_length]

theorem readAt_of_canon (m : RawMemory T) (l : List T) (k : Nat)
    (hb : m.buffer = canon l k) (j : Nat) : m.readAt j = l[j]? := by
  have hm : m = ⟨canon l k⟩ := by
    cases m
    exact congrArg RawMemory.mk hb
  rw [hm, readAt_canon]

theorem readAt_isSome_of_canon (m : RawMemory T) (l : List T) (k : Nat)
    (hb : m.buffer = canon l k) (j : Nat) (h : j < l.length) :
    (m.readAt j).isSome := by
  rw [readAt_of_canon m l k hb j, List.getElem?_eq_getElem h]
  rfl

theorem models_readAt (v : Vector T) (l : List T) (hm : v.Models l) (i : Nat) :
    v.data.readAt i = l[i]? := by
  obtain ⟨k, hb, _⟩ := hm
  exact readAt_of_canon _ _ _ hb i

theorem wf_size_le_capacity (v : Vector T) (hw : v.WF) :
    v.size ≤ v.Capacity := by
  obtain ⟨l, k, hb, hs⟩ := hw
  rw [models_capacity v l k hb, hs]
  omega

/-! Behaviour of each `Vector` operation on a well-formed state. -/

theorem memoryRelocateEmplace_models (v : Vector T) (l : List T) (k p : Nat)
    (x : T) (hb : v.data.buffer = canon l k) (hs : v.size = l.length)
    (hp : p ≤ l.length) :
    ∃ v2, v.MemoryRelocateEmplace p x = some v2 ∧
      v2.Models (l.take p ++ x :: l.drop p) ∧ v2.size = v.size + 1 ∧
      v2.Capacity = (if v.size = 0 then 1 else v.size * 2) := by
  have hlN : l.length < (if v.size = 0 then 1 else v.size * 2) := by
    rw [hs]
    split_ifs with h0 <;> omega
  have hnd1len : (v.relocateNewBlock p x).buffer.length =
      (if v.size = 0 then 1 else v.size * 2) := by
    rw [Vector.relocateNewBlock, writeAt_length, RawMemory.Allocate]
    simp
  have hnd1get : ∀ t, (v.relocateNewBlock p x).buffer[t]? =
      if p = t
      then (if p < (if v.size = 0 then 1 else v.size * 2) then some (some x)
            else none)
      else if t < (if v.size = 0 then 1 else v.size * 2) then some none
           else none := by
    intro t
    rw [Vector.relocateNewBlock, writeAt_getElem?, RawMemory.Allocate]
    simp only [List.length_replicate, List.getElem?_replicate]
  set N : Nat := if v.size = 0 then 1 else v.size * 2 with hN
  obtain ⟨nd2, hc2, hlen2, hget2⟩ :=
    copyRange_spec v.data 0 p (v.relocateNewBlock p x) 0
      (fun j hj => by
        rw [Nat.zero_add]
        exact readAt_isSome_of_canon v.data l k hb j (by omega))
  obtain ⟨nd3, hc3, hlen3, hget3⟩ :=
    copyRange_spec v.data p (v.size - p) nd2 (p + 1)
      (fun j hj => readAt_isSome_of_canon v.data l k hb (p + j) (by omega))
  have e1 : (if p ≠ 0 then copyRange v.data 0 p (v.relocateNewBlock p x) 0
      else some (v.relocateNewBlock p x)) = some nd2 := by
    by_cases hp0 : p = 0
    · rw [if_neg (by simpa using hp0)]
      set B := v.relocateNewBlock p x with hB
      rw [hp0] at hc2
      rw [copyRange] at hc2
      exact hc2
    · rw [if_pos hp0]
      exact hc2
  have e2 : (if v.size > p then copyRange v.data p (v.size - p) nd2 (p + 1)
      else some nd2) = some nd3 := by
    by_cases hsp : v.size > p
    · rw [if_pos hsp]
      exact hc3
    · rw [if_neg hsp]
      rw [show v.size - p = 0 by omega, copyRange] at hc3
      exact hc3
  refine ⟨⟨nd3, v.size + 1⟩, ?_, ?_, rfl, ?_⟩
  · rw [Vector.MemoryRelocateEmplace, e1, Option.some_bind, e2,
      Option.some_bind]
  · refine ⟨N - (l.length + 1), ?_, by rw [insertList_length l p x hp, hs]⟩
    show nd3.buffer = canon (l.take p ++ x :: l.drop p) (N - (l.length + 1))
    apply List.ext_getElem?
    intro t
    rw [hget3 t, hget2 t, hnd1get t, hlen2, hnd1len, canon_getElem?,
      insertList_getElem? l p x hp t, insertList_length l p x hp]
    rcases Nat.lt_trichotomy t p with ht | ht | ht
    · rw [if_neg (by omega), if_pos ⟨by omega, by omega, by omega⟩,
        show (0 : Nat) + (t - 0) = t by omega,
        readAt_of_canon v.data l k hb t, if_pos (by omega), if_pos ht,
        List.getElem?_eq_getElem (show t < l.length by omega)]
      rfl
    · subst ht
      rw [if_neg (by omega), if_neg (by omega), if_pos rfl,
        if_pos (by omega), if_pos (by omega), if_neg (by omega), if_pos rfl]
      rfl
    · rcases Nat.lt_or_ge t (l.length + 1) with ht2 | ht2
      · rw [if_pos ⟨by omega, by rw [hs]; omega, by omega⟩,
          show p + (t - (p + 1)) = t - 1 by omega,
          readAt_of_canon v.data l k hb (t - 1), if_pos (by omega),
          if_neg (by omega), if_neg (by omega),
          List.getElem?_eq_getElem (show t - 1 < l.length by omega)]
        rfl
      · rcases Nat.lt_or_ge t N with ht3 | ht3
        · rw [if_neg (by rw [hs]; omega), if_neg (by omega),
            if_neg (by omega), if_pos ht3, if_neg (by omega),
            if_pos (by omega)]
        · rw [if_neg (by omega), if_neg (by omega), if_neg (by omega),
            if_neg (by omega), if_neg (by omega), if_neg (by omega)]
  · exact hlen3.trans (hlen2.trans hnd1len)

theorem noMemoryRelocateEmplace_models (v : Vector T) (l : List T) (k p : Nat)
    (x : T) (hb : v.data.buffer = canon l k) (hs : v.size = l.length)
    (hk : 0 < k) (hp : p ≤ l.length) :
    ∃ v2, v.NoMemoryRelocateEmplace p x = some v2 ∧
      v2.Models (l.take p ++ x :: l.drop p) ∧ v2.size = v.size + 1 ∧
      v2.Capacity = v.Capacity := by
  have hcap : v.Capacity = l.length + k := models_capacity v l k hb
  by_cases hpe : p = v.size
  · refine ⟨⟨v.data.writeAt p x, v.size + 1⟩, ?_, ?_, rfl, ?_⟩
    · rw [Vector.NoMemoryRelocateEmplace, if_pos hpe]
    · refine ⟨k - 1, ?_, by rw [insertList_length l p x hp, hs]⟩
      show (v.data.writeAt p x).buffer = canon (l.take p ++ x :: l.drop p) (k - 1)
      have hpl : p = l.length := by omega
      apply List.ext_getElem?
      intro t
      rw [writeAt_getElem?, hb, canon_length, canon_getElem?, canon_getElem?,
        insertList_getElem? l p x hp t, insertList_length l p x hp]
      split_ifs <;> first | rfl | omega
    · show (v.data.writeAt p x).buffer.length = v.Capacity
      rw [writeAt_length, hcap, hb, canon_length]
  · have hps : p < v.size := by omega
    have hlen1 : 0 < l.length := by omega
    have hlv : v.data.readAt (v.size - 1) = l[l.length - 1]? := by
      rw [readAt_of_canon v.data l k hb, hs]
    obtain ⟨lv, hlv2⟩ : ∃ a, l[l.length - 1]? = some a :=
      ⟨_, List.getElem?_eq_getElem (by omega)⟩
    have hread1 : v.data.readAt (v.size - 1) = some lv := hlv.trans hlv2
    have hm1len : (v.data.writeAt v.size lv).buffer.length = l.length + k := by
      rw [writeAt_length, hb, canon_length]
    obtain ⟨d2, hd2, hd2len, hd2get⟩ :=
      moveBwdGo_shift (v.size - 1 - p) (v.size - 1) (v.data.writeAt v.size lv)
        (by omega)
        (fun j hj => by
          rw [readAt_writeAt_ne v.data v.size (v.size - 1 - 1 - j) lv (by omega),
            readAt_of_canon v.data l k hb]
          rw [List.getElem?_eq_getElem (show v.size - 1 - 1 - j < l.length by omega)]
          rfl)
    rw [show v.size - 1 + 1 = v.size by omega] at hd2 hd2get
    refine ⟨⟨d2.writeAt p x, v.size + 1⟩, ?_, ?_, rfl, ?_⟩
    · rw [Vector.NoMemoryRelocateEmplace, if_neg hpe]
      show (v.data.readAt (v.size - 1)).bind (fun le =>
        (stdMoveBackward (v.data.writeAt v.size le) p (v.size - 1) v.size).bind
          fun dd => some (⟨dd.writeAt p x, v.size + 1⟩ : Vector T)) = _
      rw [hread1]
      simp only [Option.some_bind]
      rw [stdMoveBackward, if_pos (show p ≤ v.size - 1 by omega), hd2]
      simp only [Option.some_bind]
    · refine ⟨k - 1, ?_, by rw [insertList_length l p x hp, hs]⟩
      show (d2.writeAt p x).buffer = canon (l.take p ++ x :: l.drop p) (k - 1)
      apply List.ext_getElem?
      intro t
      rw [writeAt_getElem?, hd2len, hd2get t, hm1len, writeAt_getElem?, hb,
        canon_length, canon_getElem?, canon_getElem?,
        insertList_getElem? l p x hp t, insertList_length l p x hp]
      split_ifs <;>
        first
          | rfl
          | omega
          | (have hne2 : v.size ≠ t - 1 := by omega
             have hlt2 : t - 1 < l.length := by omega
             obtain ⟨a, ha⟩ : ∃ a, l[t - 1]? = some a :=
               ⟨_, List.getElem?_eq_getElem hlt2⟩
             rw [readAt_writeAt_ne v.data v.size (t - 1) lv hne2,
               readAt_of_canon v.data l k hb, ha]
             rfl)
          | (have hte : t - 1 = l.length - 1 := by omega
             rw [hte, hlv2]
             rfl)
    · show (d2.writeAt p x).buffer.length = v.Capacity
      rw [writeAt_length, hd2len, hm1len, hcap]

/-- A buffer whose entries are constructed exactly below `s` and raw from `s`
    on is canonical. -/
theorem canon_of_pointwise (b : List (Option T)) (s : Nat)
    (hlive : ∀ t, t < s → ∃ y, b[t]? = some (some y))
    (hdead : ∀ t, s ≤ t → t < b.length → b[t]? = some none) :
    ∃ l2 : List T, b = canon l2 (b.length - s) ∧ l2.length = s := by
  induction b generalizing s with
  | nil =>
    refine ⟨[], by simp [canon], ?_⟩
    show 0 = s
    by_contra hc
    obtain ⟨y, hy⟩ := hlive 0 (by omega)
    exact Option.noConfusion hy
  | cons o bs ih =>
    cases s with
    | zero =>
      have ho : o = none := by
        have := hdead 0 (by omega) (by simp)
        simpa using this
      obtain ⟨l2, hl2, hl2len⟩ := ih 0
        (fun t ht => absurd ht (by omega))
        (fun t ht htl => by
          have := hdead (t + 1) (by omega) (by simp; omega)
          simpa using this)
      have hl2nil : l2 = [] := List.length_eq_zero.mp hl2len
      subst hl2nil
      refine ⟨[], ?_, rfl⟩
      rw [ho, hl2]
      simp [canon, List.replicate_succ]
    | succ s =>
      obtain ⟨y, hy⟩ := hlive 0 (by omega)
      have ho : o = some y := by simpa using hy
      obtain ⟨l2, hl2, hl2len⟩ := ih s
        (fun t ht => by
          have := hlive (t + 1) (by omega)
          simpa using this)
        (fun t ht htl => by
          have := hdead (t + 1) (by omega) (by simp; omega)
          simpa using this)
      refine ⟨y :: l2, ?_, by simp [hl2len]⟩
      rw [ho, hl2]
      simp [canon]
      omega

theorem popBack_models (v : Vector T) (l : List T) (hm : v.Models l) :
    (v.PopBack).Models (l.take (l.length - 1)) ∧
    (v.PopBack).size = v.size - 1 ∧ (v.PopBack).Capacity = v.Capacity := by
  obtain ⟨k, hb, hs⟩ := hm
  by_cases h0 : v.size = 0
  · rw [Vector.PopBack, if_neg (by omega)]
    have hl : l = [] := by
      cases l with
      | nil => rfl
      | cons a as => simp at hs; omega
    subst hl
    exact ⟨⟨k, hb, by simpa using hs⟩, by omega, rfl⟩
  · rw [Vector.PopBack, if_pos h0]
    refine ⟨⟨k + 1, ?_, ?_⟩, rfl, ?_⟩
    · show (v.data.destroyN (v.size - 1) 1).buffer =
        canon (l.take (l.length - 1)) (k + 1)
      apply List.ext_getElem?
      intro t
      rw [destroyN_getElem?, hb, canon_length, canon_getElem?, canon_getElem?,
        List.getElem?_take, List.length_take]
      split_ifs <;> first | rfl | omega
    · show v.size - 1 = (l.take (l.length - 1)).length
      rw [List.length_take]
      omega
    · show (v.data.destroyN (v.size - 1) 1).buffer.length = v.Capacity
      rw [destroyN_length, Vector.Capacity, RawMemory.Capacity]

theorem erase_models (v : Vector T) (l : List T) (p : Nat) (hm : v.Models l)
    (v2 : Vector T) (he : v.Erase p = some v2) :
    v2.WF ∧ v2.Capacity = v.Capacity ∧
    (v.size ≠ 0 → v2.size = v.size - 1) ∧ (v.size = 0 → v2 = v) := by
  obtain ⟨k, hb, hs⟩ := hm
  by_cases h0 : v.size = 0
  · rw [Vector.Erase, if_neg (by omega)] at he
    cases he
    exact ⟨⟨l, k, hb, hs⟩, rfl, fun hc => absurd h0 hc, fun _ => rfl⟩
  · rw [Vector.Erase, if_pos h0] at he
    cases hr : v.data.readAt (p + 1) with
    | none =>
      rw [hr] at he
      exact Option.noConfusion he
    | some x =>
      rw [hr] at he
      have hp1 : p + 1 < l.length := by
        by_contra hc
        rw [readAt_of_canon v.data l k hb, List.getElem?_eq_none (by omega)] at hr
        exact Option.noConfusion hr
      have he2 : (stdMoveRange (v.data.writeAt p x) (p + 1) (v.size - 1) p).bind
          (fun d2 => some (⟨d2.destroyN (v.size - 1) 1, v.size - 1⟩ : Vector T))
          = some v2 := he
      rw [stdMoveRange, if_pos (by omega)] at he2
      obtain ⟨d, hd, hdlen, hdget⟩ :=
        moveFwdGo_shift (v.size - 1 - (p + 1)) p (v.data.writeAt p x)
          (fun j hj => by
            rw [readAt_writeAt_ne v.data p (p + 1 + j) x (by omega),
              readAt_of_canon v.data l k hb,
              List.getElem?_eq_getElem (show p + 1 + j < l.length by omega)]
            rfl)
      rw [hd] at he2
      have he3 : some (⟨d.destroyN (v.size - 1) 1, v.size - 1⟩ : Vector T)
          = some v2 := he2
      cases he3
      have hm1len : (v.data.writeAt p x).buffer.length = l.length + k := by
        rw [writeAt_length, hb, canon_length]
      refine ⟨?_, ?_, fun _ => rfl, fun hc => absurd hc h0⟩
      · obtain ⟨l2, hl2, hl2len⟩ :=
          canon_of_pointwise (d.destroyN (v.size - 1) 1).buffer (v.size - 1)
            (fun t ht => by
              rw [destroyN_getElem?, if_neg (by omega), hdget t, hm1len,
                writeAt_getElem?, hb, canon_length, canon_getElem?]
              split_ifs <;>
                first
                  | omega
                  | exact ⟨x, rfl⟩
                  | (have h2 : t + 1 < l.length := by omega
                     refine ⟨l.get ⟨t + 1, h2⟩, ?_⟩
                     rw [readAt_writeAt_ne v.data p (t + 1) x (by omega),
                       readAt_of_canon v.data l k hb,
                       List.getElem?_eq_getElem h2]
                     rfl)
                  | (obtain ⟨a, ha⟩ : ∃ a, l[t]? = some a :=
                       ⟨_, List.getElem?_eq_getElem (show t < l.length by omega)⟩
                     rw [ha]
                     exact ⟨a, rfl⟩))
            (fun t ht htl => by
              rw [destroyN_length, hdlen, hm1len] at htl
              rw [destroyN_getElem?, hdget t, hdlen, hm1len, writeAt_getElem?,
                hb, canon_length, canon_getElem?]
              split_ifs <;> first | rfl | omega)
        refine ⟨l2, ⟨(d.destroyN (v.size - 1) 1).buffer.length - (v.size - 1),
          hl2, by rw [hl2len]⟩⟩
      · show (d.destroyN (v.size - 1) 1).buffer.length = v.Capacity
        rw [destroyN_length, hdlen, hm1len, models_capacity v l k hb]

theorem reserve_models (v : Vector T) (l : List T) (n : Nat) (hm : v.Models l) :
    ∃ v2, v.Reserve n = some v2 ∧ v2.Models l ∧ v2.size = v.size ∧
      v.Capacity ≤ v2.Capacity ∧ n ≤ v2.Capacity ∧
      (n ≤ v.Capacity → v2 = v) := by
  obtain ⟨k, hb, hs⟩ := hm
  by_cases hc : n ≤ v.Capacity
  · exact ⟨v, by rw [Vector.Reserve, if_pos hc], ⟨k, hb, hs⟩, rfl, le_refl _,
      hc, fun _ => rfl⟩
  · have hcap := models_capacity v l k hb
    obtain ⟨nd, hnd, hlen, hget⟩ :=
      copyRange_spec v.data 0 v.size (RawMemory.Allocate T n) 0
        (fun j hj => by
          rw [Nat.zero_add]
          exact readAt_isSome_of_canon v.data l k hb j (by omega))
    have hndlen : nd.buffer.length = n := by
      rw [hlen, RawMemory.Allocate]
      simp
    refine ⟨⟨nd, v.size⟩, ?_, ⟨n - v.size, ?_, hs⟩, rfl, ?_, ?_,
      fun hcc => absurd hcc hc⟩
    · rw [Vector.Reserve, if_neg hc]
      show (copyRange v.data 0 v.size (RawMemory.Allocate T n) 0).bind
        (fun d => some (⟨d, v.size⟩ : Vector T)) = _
      rw [hnd, Option.some_bind]
    · show nd.buffer = canon l (n - v.size)
      apply List.ext_getElem?
      intro t
      rw [hget t, RawMemory.Allocate]
      simp only [List.length_replicate, List.getElem?_replicate]
      rw [canon_getElem?]
      split_ifs <;>
        first
          | rfl
          | omega
          | (obtain ⟨a, ha⟩ : ∃ a, l[t]? = some a :=
               ⟨_, List.getElem?_eq_getElem (by omega)⟩
             rw [show (0 : Nat) + (t - 0) = t by omega,
               readAt_of_canon v.data l k hb, ha]
             rfl)
    · show v.Capacity ≤ (⟨nd, v.size⟩ : Vector T).Capacity
      show v.Capacity ≤ nd.buffer.length
      omega
    · show n ≤ nd.buffer.length
      omega

theorem resize_models [Inhabited T] (v : Vector T) (l : List T) (n : Nat)
    (hm : v.Models l) :
    ∃ v2, v.Resize n = some v2 ∧ v2.WF ∧ v2.size = n ∧
      v.Capacity ≤ v2.Capacity := by
  obtain ⟨k, hb, hs⟩ := hm
  have hcap := models_capacity v l k hb
  by_cases hgt : n > v.Capacity
  · obtain ⟨v1, hres, hm1, hsz1, hcle, hncap, _⟩ :=
      reserve_models v l n ⟨k, hb, hs⟩
    obtain ⟨k1, hb1, hs1⟩ := hm1
    have hcap1 := models_capacity v1 l k1 hb1
    refine ⟨⟨uninitValueConstructN v1.data v1.size (n - v1.size), n⟩, ?_, ?_,
      rfl, ?_⟩
    · rw [Vector.Resize, if_pos hgt]
      show (v.Reserve n).bind (fun w => some
        (⟨uninitValueConstructN w.data w.size (n - w.size), n⟩ : Vector T)) = _
      rw [hres, Option.some_bind]
    · obtain ⟨l2, hl2, hl2len⟩ := canon_of_pointwise
        (uninitValueConstructN v1.data v1.size (n - v1.size)).buffer n
        (fun t ht => by
          rw [valueConstructN_getElem?, hb1, canon_length, canon_getElem?, hs1]
          split_ifs <;>
            first
              | omega
              | exact ⟨default, rfl⟩
              | (obtain ⟨a, ha⟩ : ∃ a, l[t]? = some a :=
                   ⟨_, List.getElem?_eq_getElem (by omega)⟩
                 rw [ha]
                 exact ⟨a, rfl⟩))
        (fun t ht htl => by
          rw [valueConstructN_length, hb1, canon_length] at htl
          rw [valueConstructN_getElem?, hb1, canon_length, canon_getElem?, hs1]
          split_ifs <;> first | rfl | omega)
      exact ⟨l2, _, hl2, by rw [hl2len]⟩
    · show v.Capacity ≤
        (uninitValueConstructN v1.data v1.size (n - v1.size)).buffer.length
      rw [valueConstructN_length]
      exact hcle
  · by_cases hlt : n < v.size
    · refine ⟨⟨v.data.destroyN n (v.size - n), n⟩, ?_, ?_, rfl, ?_⟩
      · rw [Vector.Resize, if_neg hgt, if_pos hlt]
      · obtain ⟨l2, hl2, hl2len⟩ := canon_of_pointwise
          (v.data.destroyN n (v.size - n)).buffer n
          (fun t ht => by
            rw [destroyN_getElem?, hb, canon_length, canon_getElem?]
            split_ifs <;>
              first
                | omega
                | (obtain ⟨a, ha⟩ : ∃ a, l[t]? = some a :=
                     ⟨_, List.getElem?_eq_getElem (by omega)⟩
                   rw [ha]
                   exact ⟨a, rfl⟩))
          (fun t ht htl => by
            rw [destroyN_length, hb, canon_length] at htl
            rw [destroyN_getElem?, hb, canon_length, canon_getElem?]
            split_ifs <;> first | rfl | omega)
        exact ⟨l2, _, hl2, by rw [hl2len]⟩
      · show v.Capacity ≤ (v.data.destroyN n (v.size - n)).buffer.length
        rw [destroyN_length]
        exact le_of_eq (by rw [Vector.Capacity, RawMemory.Capacity])
    · refine ⟨⟨uninitValueConstructN v.data v.size (n - v.size), n⟩, ?_, ?_,
        rfl, ?_⟩
      · rw [Vector.Resize, if_neg hgt, if_neg hlt]
      · obtain ⟨l2, hl2, hl2len⟩ := canon_of_pointwise
          (uninitValueConstructN v.data v.size (n - v.size)).buffer n
          (fun t ht => by
            rw [valueConstructN_getElem?, hb, canon_length, canon_getElem?, hs]
            split_ifs <;>
              first
                | omega
                | exact ⟨default, rfl⟩
                | (obtain ⟨a, ha⟩ : ∃ a, l[t]? = some a :=
                     ⟨_, List.getElem?_eq_getElem (by omega)⟩
                   rw [ha]
                   exact ⟨a, rfl⟩))
          (fun t ht htl => by
            rw [valueConstructN_length, hb, canon_length] at htl
            rw [valueConstructN_getElem?, hb, canon_length, canon_getElem?, hs]
            split_ifs <;> first | rfl | omega)
        exact ⟨l2, _, hl2, by rw [hl2len]⟩
      · show v.Capacity ≤
          (uninitValueConstructN v.data v.size (n - v.size)).buffer.length
        rw [valueConstructN_length]
        exact le_of_eq (by rw [Vector.Capacity, RawMemory.Capacity])

theorem copyCtor_models (rhs : Vector T) (lr : List T) (hm : rhs.Models lr) :
    ∃ v2, rhs.copyCtor = some v2 ∧ v2.Models lr ∧ v2.size = rhs.size ∧
      v2.Capacity = rhs.size := by
  obtain ⟨k, hb, hs⟩ := hm
  obtain ⟨nd, hnd, hlen, hget⟩ :=
    copyRange_spec rhs.data 0 rhs.size (RawMemory.Allocate T rhs.size) 0
      (fun j hj => by
        rw [Nat.zero_add]
        exact readAt_isSome_of_canon rhs.data lr k hb j (by omega))
  have hndlen : nd.buffer.length = rhs.size := by
    rw [hlen, RawMemory.Allocate]
    simp
  refine ⟨⟨nd, rhs.size⟩, ?_, ⟨0, ?_, hs⟩, rfl, hndlen⟩
  · rw [Vector.copyCtor]
    show (copyRange rhs.data 0 rhs.size (RawMemory.Allocate T rhs.size) 0).bind
      (fun d => some (⟨d, rhs.size⟩ : Vector T)) = _
    rw [hnd, Option.some_bind]
  · show nd.buffer = canon lr 0
    apply List.ext_getElem?
    intro t
    rw [hget t, RawMemory.Allocate]
    simp only [List.length_replicate, List.getElem?_replicate]
    rw [canon_getElem?]
    split_ifs <;>
      first
        | rfl
        | omega
        | (obtain ⟨a, ha⟩ : ∃ a, lr[t]? = some a :=
             ⟨_, List.getElem?_eq_getElem (by omega)⟩
           rw [show (0 : Nat) + (t - 0) = t by omega,
             readAt_of_canon rhs.data lr k hb, ha]
           rfl)

theorem copyAssignNonSelf_models (v rhs : Vector T) (lv lr : List T)
    (hmv : v.Models lv) (hmr : rhs.Models lr) :
    ∃ v2, v.copyAssignNonSelf rhs = some v2 ∧ v2.Models lr ∧
      v2.size = rhs.size ∧
      (rhs.size ≤ v.Capacity → v2.Capacity = v.Capacity) := by
  obtain ⟨kv, hbv, hsv⟩ := hmv
  obtain ⟨kr, hbr, hsr⟩ := hmr
  have hcapv := models_capacity v lv kv hbv
  by_cases hgt : rhs.size > v.Capacity
  · obtain ⟨v2, he, hm2, hsz2, _⟩ := copyCtor_models rhs lr ⟨kr, hbr, hsr⟩
    refine ⟨v2, ?_, hm2, hsz2, fun hc => absurd hgt (by omega)⟩
    rw [Vector.copyAssignNonSelf, if_pos hgt]
    exact he
  · by_cases hlt : rhs.size < v.size
    · obtain ⟨d1, hd1, hl1, hg1⟩ :=
        copyRange_spec rhs.data 0 rhs.size v.data 0
          (fun j hj => by
            rw [Nat.zero_add]
            exact readAt_isSome_of_canon rhs.data lr kr hbr j (by omega))
      refine ⟨⟨d1.destroyN rhs.size (v.size - rhs.size), rhs.size⟩, ?_,
        ⟨v.Capacity - rhs.size, ?_, hsr⟩, rfl, fun _ => ?_⟩
      · rw [Vector.copyAssignNonSelf, if_neg hgt, if_pos hlt]
        show (copyRange rhs.data 0 rhs.size v.data 0).bind (fun d => some
          (⟨d.destroyN rhs.size (v.size - rhs.size), rhs.size⟩ : Vector T)) = _
        rw [hd1, Option.some_bind]
      · show (d1.destroyN rhs.size (v.size - rhs.size)).buffer =
          canon lr (v.Capacity - rhs.size)
        apply List.ext_getElem?
        intro t
        rw [destroyN_getElem?, hl1, hg1 t, hbv, canon_length, canon_getElem?,
          canon_getElem?, hsr]
        split_ifs <;>
          first
            | rfl
            | omega
            | (obtain ⟨a, ha⟩ : ∃ a, lr[t]? = some a :=
                 ⟨_, List.getElem?_eq_getElem (by omega)⟩
               rw [show (0 : Nat) + (t - 0) = t by omega,
                 readAt_of_canon rhs.data lr kr hbr, ha]
               rfl)
      · show (d1.destroyN rhs.size (v.size - rhs.size)).buffer.length =
          v.Capacity
        rw [destroyN_length, hl1, Vector.Capacity, RawMemory.Capacity]
    · obtain ⟨d1, hd1, hl1, hg1⟩ :=
        copyRange_spec rhs.data 0 v.size v.data 0
          (fun j hj => by
            rw [Nat.zero_add]
            exact readAt_isSome_of_canon rhs.data lr kr hbr j (by omega))
      obtain ⟨d2, hd2, hl2, hg2⟩ :=
        copyRange_spec rhs.data v.size (rhs.size - v.size) d1 v.size
          (fun j hj =>
            readAt_isSome_of_canon rhs.data lr kr hbr (v.size + j) (by omega))
      refine ⟨⟨d2, rhs.size⟩, ?_, ⟨v.Capacity - rhs.size, ?_, hsr⟩, rfl,
        fun _ => ?_⟩
      · rw [Vector.copyAssignNonSelf, if_neg hgt, if_neg hlt]
        show (copyRange rhs.data 0 v.size v.data 0).bind (fun a =>
          (copyRange rhs.data v.size (rhs.size - v.size) a v.size).bind
            (fun b => some (⟨b, rhs.size⟩ : Vector T))) = _
        rw [hd1]
        simp only [Option.some_bind]
        rw [hd2]
        simp only [Option.some_bind]
      · show d2.buffer = canon lr (v.Capacity - rhs.size)
        apply List.ext_getElem?
        intro t
        rw [hg2 t, hl1, hg1 t, hbv, canon_length, canon_getElem?,
          canon_getElem?, hsr]
        split_ifs <;>
          first
            | rfl
            | omega
            | (obtain ⟨a, ha⟩ : ∃ a, lr[t]? = some a :=
                 ⟨_, List.getElem?_eq_getElem (by omega)⟩
               rw [show (0 : Nat) + (t - 0) = t by omega,
                 readAt_of_canon rhs.data lr kr hbr, ha]
               rfl)
            | (obtain ⟨a, ha⟩ : ∃ a, lr[t]? = some a :=
                 ⟨_, List.getElem?_eq_getElem (by omega)⟩
               rw [show v.size + (t - v.size) = t by omega,
                 readAt_of_canon rhs.data lr kr hbr, ha]
               rfl)
      · show d2.buffer.length = v.Capacity
        rw [hl2, hl1, Vector.Capacity, RawMemory.Capacity]

theorem emplace_models (v : Vector T) (l : List T) (p : Nat) (x : T)
    (hm : v.Models l) (hp : p ≤ v.size) :
    ∃ v2, v.Emplace p x = some v2 ∧
      v2.Models (l.take p ++ x :: l.drop p) ∧ v2.size = v.size + 1 ∧
      v2.Capacity = (if v.size = v.Capacity
        then (if v.size = 0 then 1 else v.size * 2) else v.Capacity) := by
  obtain ⟨k, hb, hs⟩ := hm
  have hp2 : p ≤ l.length := by omega
  by_cases hc : v.size = v.Capacity
  · obtain ⟨v2, he, hmo, hsz, hcap⟩ :=
      memoryRelocateEmplace_models v l k p x hb hs hp2
    refine ⟨v2, ?_, hmo, hsz, ?_⟩
    · rw [Vector.Emplace, if_pos hc]
      exact he
    · rw [if_pos hc]
      exact hcap
  · have hk : 0 < k := by
      have := models_capacity v l k hb
      omega
    obtain ⟨v2, he, hmo, hsz, hcap⟩ :=
      noMemoryRelocateEmplace_models v l k p x hb hs hk hp2
    refine ⟨v2, ?_, hmo, hsz, ?_⟩
    · rw [Vector.Emplace, if_neg hc]
      exact he
    · rw [if_neg hc]
      exact hcap

/-! Capacity monotonicity facts, proved for arbitrary (not necessarily
    well-formed) states. -/

theorem allocate_length (n : Nat) :
    (RawMemory.Allocate T n).buffer.length = n := by
  rw [RawMemory.Allocate]
  simp

theorem reserve_capacity (v : Vector T) (n : Nat) (v2 : Vector T)
    (h : v.Reserve n = some v2) :
    v.Capacity ≤ v2.Capacity ∧ v2.size = v.size := by
  rw [Vector.Reserve] at h
  by_cases hc : n ≤ v.Capacity
  · rw [if_pos hc] at h
    cases h
    exact ⟨le_refl _, rfl⟩
  · rw [if_neg hc] at h
    have h2 : (copyRange v.data 0 v.size (RawMemory.Allocate T n) 0).bind
        (fun d => some (⟨d, v.size⟩ : Vector T)) = some v2 := h
    obtain ⟨d, hd, hd2⟩ := Option.bind_eq_some.mp h2
    cases hd2
    constructor
    · show v.Capacity ≤ d.buffer.length
      rw [copyRange_length _ _ _ _ _ _ hd, allocate_length]
      omega
    · rfl

theorem emplace_capacity (v : Vector T) (p : Nat) (x : T) (v2 : Vector T)
    (h : v.Emplace p x = some v2) :
    v.Capacity ≤ v2.Capacity ∧ v2.size = v.size + 1 := by
  rw [Vector.Emplace] at h
  by_cases hc : v.size = v.Capacity
  · rw [if_pos hc, Vector.MemoryRelocateEmplace] at h
    obtain ⟨nd2, h1, h2⟩ := Option.bind_eq_some.mp h
    obtain ⟨nd3, h3, h4⟩ := Option.bind_eq_some.mp h2
    cases h4
    refine ⟨?_, rfl⟩
    show v.Capacity ≤ nd3.buffer.length
    have hlen3 : nd3.buffer.length = nd2.buffer.length := by
      by_cases hsp : v.size > p
      · rw [if_pos hsp] at h3
        exact copyRange_length _ _ _ _ _ _ h3
      · rw [if_neg hsp] at h3
        cases h3
        rfl
    have hlen2 : nd2.buffer.length =
        (v.relocateNewBlock p x).buffer.length := by
      by_cases hp0 : p ≠ 0
      · rw [if_pos hp0] at h1
        exact copyRange_length _ _ _ _ _ _ h1
      · rw [if_neg hp0] at h1
        cases h1
        rfl
    have hlenN : (v.relocateNewBlock p x).buffer.length =
        (if v.size = 0 then 1 else v.size * 2) := by
      rw [Vector.relocateNewBlock, writeAt_length, allocate_length]
    rw [hlen3, hlen2, hlenN]
    split_ifs with h0 <;> omega
  · rw [if_neg hc, Vector.NoMemoryRelocateEmplace] at h
    by_cases hpe : p = v.size
    · rw [if_pos hpe] at h
      cases h
      refine ⟨?_, rfl⟩
      show v.data.buffer.length ≤ (v.data.writeAt p x).buffer.length
      rw [writeAt_length]
    · rw [if_neg hpe] at h
      have h2 : (v.data.readAt (v.size - 1)).bind (fun le =>
          (stdMoveBackward (v.data.writeAt v.size le) p (v.size - 1)
            v.size).bind
            (fun dd => some (⟨dd.writeAt p x, v.size + 1⟩ : Vector T)))
          = some v2 := h
      obtain ⟨lv, hlv, h3⟩ := Option.bind_eq_some.mp h2
      obtain ⟨dd, hdd, h4⟩ := Option.bind_eq_some.mp h3
      cases h4
      refine ⟨?_, rfl⟩
      show v.data.buffer.length ≤ (dd.writeAt p x).buffer.length
      rw [writeAt_length]
      have hlen : dd.buffer.length =
          (v.data.writeAt v.size lv).buffer.length := by
        rw [stdMoveBackward] at hdd
        by_cases hfl : p ≤ v.size - 1
        · rw [if_pos hfl] at hdd
          exact moveBwdGo_length _ _ _ _ _ hdd
        · rw [if_neg hfl] at hdd
          exact Option.noConfusion hdd
      rw [hlen, writeAt_length]

theorem erase_capacity (v : Vector T) (p : Nat) (v2 : Vector T)
    (h : v.Erase p = some v2) : v.Capacity ≤ v2.Capacity := by
  rw [Vector.Erase] at h
  by_cases h0 : v.size ≠ 0
  · rw [if_pos h0] at h
    have h2 : (v.data.readAt (p + 1)).bind (fun x =>
        (stdMoveRange (v.data.writeAt p x) (p + 1) (v.size - 1) p).bind
          (fun d2 => some (⟨d2.destroyN (v.size - 1) 1, v.size - 1⟩ :
            Vector T))) = some v2 := h
    obtain ⟨x, hx, h3⟩ := Option.bind_eq_some.mp h2
    obtain ⟨d2, hd2, h4⟩ := Option.bind_eq_some.mp h3
    cases h4
    show v.data.buffer.length ≤ (d2.destroyN (v.size - 1) 1).buffer.length
    rw [destroyN_length]
    have hlen : d2.buffer.length = (v.data.writeAt p x).buffer.length := by
      rw [stdMoveRange] at hd2
      by_cases hfl : p + 1 ≤ v.size - 1
      · rw [if_pos hfl] at hd2
        exact moveFwdGo_length _ _ _ _ _ hd2
      · rw [if_neg hfl] at hd2
        exact Option.noConfusion hd2
    rw [hlen, writeAt_length]
  · rw [if_neg h0] at h
    cases h
    exact le_refl _

theorem popBack_capacity (v : Vector T) :
    (v.PopBack).Capacity = v.Capacity ∧ (v.PopBack).size = v.size - 1 := by
  rw [Vector.PopBack]
  by_cases h0 : v.size ≠ 0
  · rw [if_pos h0]
    exact ⟨by show (v.data.destroyN (v.size - 1) 1).buffer.length = _
              rw [destroyN_length]
              rfl, rfl⟩
  · rw [if_neg h0]
    exact ⟨rfl, by omega⟩

theorem resize_capacity [Inhabited T] (v : Vector T) (n : Nat) (v2 : Vector T)
    (h : v.Resize n = some v2) :
    v.Capacity ≤ v2.Capacity ∧ v2.size = n := by
  rw [Vector.Resize] at h
  by_cases hgt : n > v.Capacity
  · rw [if_pos hgt] at h
    have h2 : (v.Reserve n).bind (fun w => some
        (⟨uninitValueConstructN w.data w.size (n - w.size), n⟩ : Vector T))
        = some v2 := h
    obtain ⟨w, hw, h3⟩ := Option.bind_eq_some.mp h2
    cases h3
    refine ⟨?_, rfl⟩
    show v.Capacity ≤
      (uninitValueConstructN w.data w.size (n - w.size)).buffer.length
    rw [valueConstructN_length]
    exact (reserve_capacity v n w hw).1
  · rw [if_neg hgt] at h
    by_cases hlt : n < v.size
    · rw [if_pos hlt] at h
      cases h
      refine ⟨?_, rfl⟩
      show v.data.buffer.length ≤
        (v.data.destroyN n (v.size - n)).buffer.length
      rw [destroyN_length]
    · rw [if_neg hlt] at h
      cases h
      refine ⟨?_, rfl⟩
      show v.data.buffer.length ≤
        (uninitValueConstructN v.data v.size (n - v.size)).buffer.length
      rw [valueConstructN_length]

/-- The sized constructor produces the default value at every index. -/
theorem mkSized_models [Inhabited T] (n : Nat) :
    (Vector.mkSized T n).Models (List.replicate n default) := by
  refine ⟨0, ?_, by simp [Vector.mkSized]⟩
  show (uninitValueConstructN (RawMemory.Allocate T n) 0 n).buffer =
    canon (List.replicate n default) 0
  apply List.ext_getElem?
  intro t
  rw [valueConstructN_getElem?, allocate_length, RawMemory.Allocate,
    canon_getElem?, List.length_replicate]
  simp only [List.getElem?_replicate]
  split_ifs <;> first | rfl | omega

/-- Running any `PushBack`/`PopBack` sequence from a well-formed state
    succeeds, preserves well-formedness and tracks the clamped net size. -/
theorem applyOps_spec (ops : List (PushPop T)) :
    ∀ (v : Vector T) (l : List T), v.Models l →
      ∃ v2, v.applyOps ops = some v2 ∧ v2.size = netSize v.size ops ∧
        v2.WF := by
  induction ops with
  | nil =>
    intro v l hm
    exact ⟨v, rfl, rfl, ⟨l, hm⟩⟩
  | cons op rest ih =>
    intro v l hm
    cases op with
    | push x =>
      obtain ⟨v1, he, hmo, hsz, _⟩ := emplace_models v l v.size x hm (le_refl _)
      obtain ⟨v2, he2, hs2, hwf2⟩ := ih v1 _ hmo
      refine ⟨v2, ?_, ?_, hwf2⟩
      · rw [Vector.applyOps]
        show (v.PushBack x).bind (fun w => w.applyOps rest) = some v2
        rw [Vector.PushBack, Vector.EmplaceBack, he, Option.some_bind]
        exact he2
      · rw [netSize, hs2, hsz]
    | pop =>
      obtain ⟨hmo, hsz, _⟩ := popBack_models v l hm
      obtain ⟨v2, he2, hs2, hwf2⟩ := ih v.PopBack _ hmo
      refine ⟨v2, ?_, ?_, hwf2⟩
      · rw [Vector.applyOps]
        exact he2
      · rw [netSize, hs2, hsz]

end CppVec

namespace CppVec

/-- C1: the claim states that `Erase(pos)` removes exactly the element at
    `pos` and keeps the remaining elements in order; the code does not.
    Erasing position 0 of `[1, 9, 2, 3]` (size 4, capacity 4) yields
    `[9, 2, 2]` — the trailing `3` is never shifted (the upper bound of the
    `std::move` on line 219 is `&data_[size_ - 1]` instead of `&data_[size_]`)
    and is destroyed, while `2` is left duplicated.  The spec's own §8
    scenario requires `[9, 2, 3]`. -/
theorem erase_loses_last_element :
    Vector.Erase (⟨⟨[some 1, some 9, some 2, some 3]⟩, 4⟩ : Vector Nat) 0 =
      some ⟨⟨[some 9, some 2, some 2, none]⟩, 3⟩ ∧
    Vector.Erase (⟨⟨[some 1, some 9, some 2, some 3]⟩, 4⟩ : Vector Nat) 0 ≠
      some ⟨⟨[some 9, some 2, some 3, none]⟩, 3⟩ := by
  constructor
  · rfl
  · decide

/-- C3: the claim states that move-assignment releases `v`'s current block.
    The code does not: with blocks 1 (held by `v`) and 2 (held by `rhs`)
    allocated, `v = std::move(rhs)` transfers block 2 and `rhs`'s size to `v`
    and leaves `rhs` with a null zero-capacity block and size 0 — those parts
    hold — but the allocated set is unchanged, so block 1 is still allocated
    afterwards and unreachable: it is leaked, not released (a `Deallocate`
    would have removed it, as the last conjunct shows). -/
theorem moveAssign_leaks_current_block :
    vectorMoveAssign [1, 2] ⟨⟨some 1, 3⟩, 2⟩ ⟨⟨some 2, 1⟩, 1⟩ =
      ([1, 2], ⟨⟨some 2, 1⟩, 1⟩, ⟨⟨none, 0⟩, 0⟩) ∧
    (1 : Nat) ∈ (vectorMoveAssign [1, 2] ⟨⟨some 1, 3⟩, 2⟩ ⟨⟨some 2, 1⟩, 1⟩).1 ∧
    deallocateBlock [1, 2] (some 1) = [2] ∧
    Vector.moveAssign (⟨⟨[some 10]⟩, 1⟩ : Vector Nat) ⟨⟨[some 7, none]⟩, 1⟩ =
      (⟨⟨[some 7, none]⟩, 1⟩, ⟨⟨[]⟩, 0⟩) := by
  exact ⟨rfl, by decide, by decide, rfl⟩

/-- C9: the claim states that under `Size() > 0` and `pos ∈ [begin, end)` (and
    also for `Erase` on an empty vector) no assertion of the block-addressing
    primitives can fire during `Erase`.  Counterexample: a vector of size 1
    and capacity 1 (reachable by one `PushBack` from a default-constructed
    vector) with `pos = begin()`, i.e. `p = 0 < size`: line 218 evaluates
    `data_[1]` and `assert(1 < 1)` fails.  An empty vector with capacity 0
    also fails: line 223 evaluates `&data_[0]` and `assert(0 < 0)` fails. -/
theorem erase_assert_fires_at_last_position :
    (⟨⟨[some 5]⟩, 1⟩ : Vector Nat).size = 1 ∧
    (0 : Nat) < (⟨⟨[some 5]⟩, 1⟩ : Vector Nat).size ∧
    Vector.eraseAssertsOk (⟨⟨[some 5]⟩, 1⟩ : Vector Nat) 0 = false ∧
    Vector.eraseAssertsOk (⟨⟨[]⟩, 0⟩ : Vector Nat) 0 = false := by
  decide

/-- C9 (amended): during `Erase` at offset `p` on a vector with
    `0 < Size()`, `p < Size()` and `p + 1 < Capacity()`, every index passed to
    `RawMemory::operator[]` satisfies its `assert(index < capacity_)` (and
    `operator+` is never called); likewise for `Erase` on an empty vector with
    positive capacity.  The extra condition `p + 1 < Capacity()` fails exactly
    when `pos = end() - 1` and `Size() = Capacity()`. -/
theorem erase_asserts_conditions (v w : Vector T) (p : Nat)
    (hsc : v.size ≤ v.Capacity) (hpos : 0 < v.size) (hp : p < v.size)
    (hp1 : p + 1 < v.Capacity) (hw0 : w.size = 0) (hwc : 0 < w.Capacity) :
    v.eraseAssertsOk p = true ∧ w.eraseAssertsOk 0 = true := by
  constructor
  · simp only [Vector.eraseAssertsOk, if_pos (Nat.pos_iff_ne_zero.mp hpos)]
    simp only [Bool.and_eq_true, decide_eq_true_eq]
    omega
  · simp only [Vector.eraseAssertsOk, hw0]
    simp [hwc]

/-- Witness for `erase_asserts_conditions` at a size-2, capacity-3 vector with
    `p = 0`, and an empty capacity-1 vector. -/
theorem erase_asserts_conditions_witness :
    Vector.eraseAssertsOk (⟨⟨[some 1, some 2, none]⟩, 2⟩ : Vector Nat) 0 = true ∧
    Vector.eraseAssertsOk (⟨⟨[none]⟩, 0⟩ : Vector Nat) 0 = true :=
  erase_asserts_conditions ⟨⟨[some 1, some 2, none]⟩, 2⟩ ⟨⟨[none]⟩, 0⟩ 0
    (by decide) (by decide) (by decide) (by decide) (by decide) (by decide)

/-- C2: for a well-formed vector holding the values `l` and any offset
    `p ≤ Size()`, `Emplace(pos, x)` succeeds; afterwards the element readable
    at `p` equals `x`, `Size()` has grown by exactly 1, and the live values
    are `l.take p ++ x :: l.drop p` — the elements before `pos` and those at
    or after `pos` keep their relative order.  `Emplace` is exactly the join
    of its growth path (`MemoryRelocateEmplace`, when size = capacity) and
    its in-place path (`NoMemoryRelocateEmplace`), so the statement covers
    both. -/
theorem emplace_inserts_at_position (v : Vector T) (l : List T) (p : Nat)
    (x : T) (hm : v.Models l) (hp : p ≤ v.Size) :
    ∃ v2, v.Emplace p x = some v2 ∧ v2.data.readAt p = some x ∧
      v2.Size = v.Size + 1 ∧ v2.Models (l.take p ++ x :: l.drop p) := by
  have hpl : p ≤ l.length := by
    obtain ⟨k, hb, hs⟩ := hm
    have : v.size = l.length := hs
    have hps : p ≤ v.size := hp
    omega
  obtain ⟨v2, he, hmo, hsz, _⟩ := emplace_models v l p x hm hp
  refine ⟨v2, he, ?_, hsz, hmo⟩
  rw [models_readAt v2 _ hmo p, insertList_getElem? l p x hpl p,
    if_neg (by omega), if_pos rfl]

/-- Witness for `emplace_inserts_at_position`: inserting 9 at offset 1 of the
    size-2, capacity-2 vector holding `[1, 2]`. -/
theorem emplace_inserts_at_position_witness :
    ∃ v2, Vector.Emplace (⟨⟨[some 1, some 2]⟩, 2⟩ : Vector Nat) 1 9 = some v2 ∧
      v2.data.readAt 1 = some 9 ∧
      v2.Size = (⟨⟨[some 1, some 2]⟩, 2⟩ : Vector Nat).Size + 1 ∧
      v2.Models ([1, 2].take 1 ++ 9 :: [1, 2].drop 1) :=
  emplace_inserts_at_position ⟨⟨[some 1, some 2]⟩, 2⟩ [1, 2] 1 9 ⟨0, rfl, rfl⟩
    (by decide)

/-- C4: `Reserve(n)` succeeds on a well-formed vector; afterwards
    `Capacity() ≥ n`, the capacity has not decreased, the size is unchanged,
    the elements are unchanged, and when `n ≤ Capacity()` beforehand the call
    leaves the state literally equal (no-op). -/
theorem reserve_capacity_spec (v : Vector T) (l : List T) (n : Nat)
    (hm : v.Models l) :
    ∃ v2, v.Reserve n = some v2 ∧ n ≤ v2.Capacity ∧
      v.Capacity ≤ v2.Capacity ∧ v2.Size = v.Size ∧ v2.Models l ∧
      (n ≤ v.Capacity → v2 = v) := by
  obtain ⟨v2, he, hmo, hsz, hcle, hnle, hnoop⟩ := reserve_models v l n hm
  exact ⟨v2, he, hnle, hcle, hsz, hmo, hnoop⟩

/-- Witness for `reserve_capacity_spec`: `Reserve(5)` on a size-1,
    capacity-1 vector holding `[3]`. -/
theorem reserve_capacity_spec_witness :
    ∃ v2, Vector.Reserve (⟨⟨[some 3]⟩, 1⟩ : Vector Nat) 5 = some v2 ∧
      5 ≤ v2.Capacity ∧
      (⟨⟨[some 3]⟩, 1⟩ : Vector Nat).Capacity ≤ v2.Capacity ∧
      v2.Size = (⟨⟨[some 3]⟩, 1⟩ : Vector Nat).Size ∧ v2.Models [3] ∧
      (5 ≤ (⟨⟨[some 3]⟩, 1⟩ : Vector Nat).Capacity →
        v2 = (⟨⟨[some 3]⟩, 1⟩ : Vector Nat)) :=
  reserve_capacity_spec ⟨⟨[some 3]⟩, 1⟩ [3] 5 ⟨0, rfl, rfl⟩

/-- C5: growth doubling.  When a push finds `Size() = Capacity()`, the new
    capacity is 1 if the old capacity was 0 and twice the old size otherwise
    (`size_ == 0 ? 1 : size_ * 2` on the growth path); when there is room the
    capacity is unchanged.  Consequently the capacities taken by successive
    `PushBack`s from a default-constructed vector follow 0 → 1 → 2 → 4 → 8
    → …, as the evaluated prefix (capacities after 0..8 pushes) shows. -/
theorem pushBack_growth_doubling (va vb : Vector T) (la lb : List T) (x : T)
    (hma : va.Models la) (hmb : vb.Models lb)
    (hfull : va.Size = va.Capacity) (hroom : vb.Size ≠ vb.Capacity) :
    (∃ v2, va.PushBack x = some v2 ∧
       v2.Capacity = (if va.Capacity = 0 then 1 else 2 * va.Size) ∧
       v2.Size = va.Size + 1) ∧
    (∃ v2, vb.PushBack x = some v2 ∧ v2.Capacity = vb.Capacity ∧
       v2.Size = vb.Size + 1) ∧
    (List.range 9).map (fun j => (pushIterNat j).map Vector.Capacity) =
      [some 0, some 1, some 2, some 4, some 4, some 8, some 8, some 8,
        some 8] := by
  refine ⟨?_, ?_, by decide⟩
  · obtain ⟨v2, he, _, hsz, hcap⟩ :=
      emplace_models va la va.size x hma (le_refl _)
    refine ⟨v2, ?_, ?_, hsz⟩
    · rw [Vector.PushBack, Vector.EmplaceBack]
      exact he
    · have hf : va.size = va.Capacity := hfull
      have hSS : va.Size = va.size := rfl
      rw [hcap, if_pos hf]
      split_ifs <;> omega
  · obtain ⟨v2, he, _, hsz, hcap⟩ :=
      emplace_models vb lb vb.size x hmb (le_refl _)
    refine ⟨v2, ?_, ?_, hsz⟩
    · rw [Vector.PushBack, Vector.EmplaceBack]
      exact he
    · have hr : vb.size ≠ vb.Capacity := hroom
      rw [hcap, if_neg hr]

/-- Witness for `pushBack_growth_doubling`: a full size-1, capacity-1 vector
    and a size-1, capacity-2 vector with room. -/
theorem pushBack_growth_doubling_witness :
    (∃ v2, Vector.PushBack (⟨⟨[some 7]⟩, 1⟩ : Vector Nat) 0 = some v2 ∧
       v2.Capacity = (if (⟨⟨[some 7]⟩, 1⟩ : Vector Nat).Capacity = 0 then 1
         else 2 * (⟨⟨[some 7]⟩, 1⟩ : Vector Nat).Size) ∧
       v2.Size = (⟨⟨[some 7]⟩, 1⟩ : Vector Nat).Size + 1) ∧
    (∃ v2, Vector.PushBack (⟨⟨[some 7, none]⟩, 1⟩ : Vector Nat) 0 = some v2 ∧
       v2.Capacity = (⟨⟨[some 7, none]⟩, 1⟩ : Vector Nat).Capacity ∧
       v2.Size = (⟨⟨[some 7, none]⟩, 1⟩ : Vector Nat).Size + 1) ∧
    (List.range 9).map (fun j => (pushIterNat j).map Vector.Capacity) =
      [some 0, some 1, some 2, some 4, some 4, some 8, some 8, some 8,
        some 8] :=
  pushBack_growth_doubling ⟨⟨[some 7]⟩, 1⟩ ⟨⟨[some 7, none]⟩, 1⟩ [7] [7] 0
    ⟨0, rfl, rfl⟩ ⟨1, rfl, rfl⟩ (by decide) (by decide)

/-- C7: running any finite `PushBack`/`PopBack` sequence on a well-formed
    vector succeeds, and the final `Size()` is the running net count of
    pushes minus pops clamped at 0 at every step (`netSize`, which uses
    truncated subtraction); in particular `PopBack` on a vector of size 0
    leaves the state literally unchanged (a no-op, not an error). -/
theorem pushPop_size_net_count (v w : Vector T) (l : List T)
    (ops : List (PushPop T)) (hm : v.Models l) (hw0 : w.Size = 0) :
    (∃ v2, v.applyOps ops = some v2 ∧ v2.Size = netSize v.Size ops) ∧
    w.PopBack = w := by
  constructor
  · obtain ⟨v2, he, hs, _⟩ := applyOps_spec ops v l hm
    exact ⟨v2, he, hs⟩
  · have hw : w.size = 0 := hw0
    rw [Vector.PopBack, if_neg (by omega)]

/-- Witness for `pushPop_size_net_count`: pushes 1, 2 then three pops (one
    clamped at 0) then a push, starting from an empty vector. -/
theorem pushPop_size_net_count_witness :
    (∃ v2, Vector.applyOps (⟨⟨[]⟩, 0⟩ : Vector Nat)
        [PushPop.push 1, PushPop.push 2, PushPop.pop, PushPop.pop,
          PushPop.pop, PushPop.push 5] = some v2 ∧
      v2.Size = netSize (⟨⟨[]⟩, 0⟩ : Vector Nat).Size
        [PushPop.push 1, PushPop.push 2, PushPop.pop, PushPop.pop,
          PushPop.pop, PushPop.push 5]) ∧
    Vector.PopBack (⟨⟨[]⟩, 0⟩ : Vector Nat) = ⟨⟨[]⟩, 0⟩ :=
  pushPop_size_net_count ⟨⟨[]⟩, 0⟩ ⟨⟨[]⟩, 0⟩ []
    [PushPop.push 1, PushPop.push 2, PushPop.pop, PushPop.pop, PushPop.pop,
      PushPop.push 5] ⟨0, rfl, rfl⟩ (by decide)

/-- C8: copy-assignment with `rhs.Size() ≤ Capacity()` reuses the existing
    block: the result has the same capacity (no reallocation), size
    `rhs.Size()`, and is canonical for `rhs`'s values — its slots
    `[0, rhs.Size())` hold `rhs`'s elements and the slots from `rhs.Size()`
    on are raw, so a shrinking assignment has destroyed the excess tail.
    Self-assignment (the `this != &rhs` check, modelled by `isSelf = true`)
    leaves the vector literally unchanged. -/
theorem copyAssign_in_place_spec (v rhs : Vector T) (lv lr : List T)
    (hmv : v.Models lv) (hmr : rhs.Models lr) (hle : rhs.Size ≤ v.Capacity) :
    (∃ v2, Vector.copyAssign false v rhs = some v2 ∧
       v2.Capacity = v.Capacity ∧ v2.Size = rhs.Size ∧ v2.Models lr) ∧
    Vector.copyAssign true v v = some v := by
  constructor
  · obtain ⟨v2, he, hmo, hsz, hcap⟩ :=
      copyAssignNonSelf_models v rhs lv lr hmv hmr
    exact ⟨v2, he, hcap hle, hsz, hmo⟩
  · rfl

/-- Witness for `copyAssign_in_place_spec`: the spec's own scenario — a
    size-2 vector copy-assigned into a size-3, capacity-5 vector. -/
theorem copyAssign_in_place_spec_witness :
    (∃ v2, Vector.copyAssign false
        (⟨⟨[some 1, some 2, some 3, none, none]⟩, 3⟩ : Vector Nat)
        ⟨⟨[some 7, some 8]⟩, 2⟩ = some v2 ∧
      v2.Capacity =
        (⟨⟨[some 1, some 2, some 3, none, none]⟩, 3⟩ : Vector Nat).Capacity ∧
      v2.Size = (⟨⟨[some 7, some 8]⟩, 2⟩ : Vector Nat).Size ∧
      v2.Models [7, 8]) ∧
    Vector.copyAssign true
        (⟨⟨[some 1, some 2, some 3, none, none]⟩, 3⟩ : Vector Nat)
        ⟨⟨[some 1, some 2, some 3, none, none]⟩, 3⟩ =
      some ⟨⟨[some 1, some 2, some 3, none, none]⟩, 3⟩ :=
  copyAssign_in_place_spec ⟨⟨[some 1, some 2, some 3, none, none]⟩, 3⟩
    ⟨⟨[some 7, some 8]⟩, 2⟩ [1, 2, 3] [7, 8] ⟨2, rfl, rfl⟩ ⟨0, rfl, rfl⟩
    (by decide)

/-- C10: none of the mutating sequence operations ever decreases
    `Capacity()`: whenever `Emplace`, `Erase`, `Resize` or `Reserve` returns
    a state, that state's capacity is at least the old one, and `PopBack`
    keeps the capacity; `PushBack`, `EmplaceBack` and `Insert` are
    definitionally `Emplace` calls (last three conjuncts), so they are
    covered as well.  No well-formedness is assumed. -/
theorem mutators_never_shrink_capacity [Inhabited T] (v : Vector T)
    (p n : Nat) (x : T) (v1 v2 v3 v4 : Vector T)
    (hem : v.Emplace p x = some v1) (her : v.Erase p = some v2)
    (hre : v.Resize n = some v3) (hrv : v.Reserve n = some v4) :
    v.Capacity ≤ v1.Capacity ∧ v.Capacity ≤ (v.PopBack).Capacity ∧
    v.Capacity ≤ v2.Capacity ∧ v.Capacity ≤ v3.Capacity ∧
    v.Capacity ≤ v4.Capacity ∧
    v.PushBack x = v.Emplace v.Size x ∧
    v.EmplaceBack x = v.Emplace v.Size x ∧
    v.Insert p x = v.Emplace p x :=
  ⟨(emplace_capacity v p x v1 hem).1,
    le_of_eq (popBack_capacity v).1.symm,
    erase_capacity v p v2 her, (resize_capacity v n v3 hre).1,
    (reserve_capacity v n v4 hrv).1, rfl, rfl, rfl⟩

/-- Witness for `mutators_never_shrink_capacity` on the size-2, capacity-2
    vector holding `[1, 2]` (emplace at 0, erase at 0, resize to 3,
    reserve 3). -/
theorem mutators_never_shrink_capacity_witness :
    (⟨⟨[some 1, some 2]⟩, 2⟩ : Vector Nat).Capacity ≤
      (⟨⟨[some 9, some 1, some 2, none]⟩, 3⟩ : Vector Nat).Capacity ∧
    (⟨⟨[some 1, some 2]⟩, 2⟩ : Vector Nat).Capacity ≤
      ((⟨⟨[some 1, some 2]⟩, 2⟩ : Vector Nat).PopBack).Capacity ∧
    (⟨⟨[some 1, some 2]⟩, 2⟩ : Vector Nat).Capacity ≤
      (⟨⟨[some 2, none]⟩, 1⟩ : Vector Nat).Capacity ∧
    (⟨⟨[some 1, some 2]⟩, 2⟩ : Vector Nat).Capacity ≤
      (⟨⟨[some 1, some 2, some 0]⟩, 3⟩ : Vector Nat).Capacity ∧
    (⟨⟨[some 1, some 2]⟩, 2⟩ : Vector Nat).Capacity ≤
      (⟨⟨[some 1, some 2, none]⟩, 2⟩ : Vector Nat).Capacity ∧
    Vector.PushBack (⟨⟨[some 1, some 2]⟩, 2⟩ : Vector Nat) 9 =
      Vector.Emplace ⟨⟨[some 1, some 2]⟩, 2⟩
        (⟨⟨[some 1, some 2]⟩, 2⟩ : Vector Nat).Size 9 ∧
    Vector.EmplaceBack (⟨⟨[some 1, some 2]⟩, 2⟩ : Vector Nat) 9 =
      Vector.Emplace ⟨⟨[some 1, some 2]⟩, 2⟩
        (⟨⟨[some 1, some 2]⟩, 2⟩ : Vector Nat).Size 9 ∧
    Vector.Insert (⟨⟨[some 1, some 2]⟩, 2⟩ : Vector Nat) 0 9 =
      Vector.Emplace ⟨⟨[some 1, some 2]⟩, 2⟩ 0 9 :=
  mutators_never_shrink_capacity ⟨⟨[some 1, some 2]⟩, 2⟩ 0 3 9
    ⟨⟨[some 9, some 1, some 2, none]⟩, 3⟩ ⟨⟨[some 2, none]⟩, 1⟩
    ⟨⟨[some 1, some 2, some 0]⟩, 3⟩ ⟨⟨[some 1, some 2, none]⟩, 2⟩
    (by decide) (by decide) (by decide) (by decide)

/-- C6: `Size() ≤ Capacity()` together with well-formedness (`WF`: the live
    elements occupy exactly the front slots `[0, size)` of the block, the
    rest being raw) holds for every constructor's result and is preserved by
    `PushBack`, `PopBack`, `EmplaceBack`, `Emplace`, `Insert`, `Erase`,
    `Resize`, `Reserve`, `Swap` and both assignments. -/
theorem size_le_capacity_invariant [Inhabited T] (v rhs : Vector T)
    (lv lr : List T) (x : T) (p n : Nat) (b : Bool) (v3 : Vector T)
    (hmv : v.Models lv) (hmr : rhs.Models lr) (hp : p ≤ v.Size)
    (herase : v.Erase p = some v3) :
    (v.WF ∧ v.Size ≤ v.Capacity) ∧
    ((Vector.mkDefault T).WF ∧
      (Vector.mkDefault T).Size ≤ (Vector.mkDefault T).Capacity) ∧
    ((Vector.mkSized T n).WF ∧
      (Vector.mkSized T n).Size ≤ (Vector.mkSized T n).Capacity) ∧
    (∃ w, v.copyCtor = some w ∧ w.WF ∧ w.Size ≤ w.Capacity) ∧
    ((v.moveCtor.1).WF ∧ (v.moveCtor.1).Size ≤ (v.moveCtor.1).Capacity) ∧
    ((v.moveCtor.2).WF ∧ (v.moveCtor.2).Size ≤ (v.moveCtor.2).Capacity) ∧
    (∃ w, v.Emplace p x = some w ∧ w.WF ∧ w.Size ≤ w.Capacity) ∧
    (∃ w, v.Insert p x = some w ∧ w.WF ∧ w.Size ≤ w.Capacity) ∧
    (∃ w, v.PushBack x = some w ∧ w.WF ∧ w.Size ≤ w.Capacity) ∧
    (∃ w, v.EmplaceBack x = some w ∧ w.WF ∧ w.Size ≤ w.Capacity) ∧
    ((v.PopBack).WF ∧ (v.PopBack).Size ≤ (v.PopBack).Capacity) ∧
    (v3.WF ∧ v3.Size ≤ v3.Capacity) ∧
    (∃ w, v.Resize n = some w ∧ w.WF ∧ w.Size ≤ w.Capacity) ∧
    (∃ w, v.Reserve n = some w ∧ w.WF ∧ w.Size ≤ w.Capacity) ∧
    (((v.Swap rhs).1).WF ∧
      ((v.Swap rhs).1).Size ≤ ((v.Swap rhs).1).Capacity) ∧
    (((v.Swap rhs).2).WF ∧
      ((v.Swap rhs).2).Size ≤ ((v.Swap rhs).2).Capacity) ∧
    (∃ w, Vector.copyAssign b v rhs = some w ∧ w.WF ∧ w.Size ≤ w.Capacity) ∧
    (((v.moveAssign rhs).1).WF ∧
      ((v.moveAssign rhs).1).Size ≤ ((v.moveAssign rhs).1).Capacity) ∧
    (((v.moveAssign rhs).2).WF ∧
      ((v.moveAssign rhs).2).Size ≤ ((v.moveAssign rhs).2).Capacity) := by
  have hwb : ∀ w : Vector T, w.WF → w.WF ∧ w.Size ≤ w.Capacity :=
    fun w h => ⟨h, wf_size_le_capacity w h⟩
  obtain ⟨we, hee, hme, _, _⟩ := emplace_models v lv p x hmv hp
  obtain ⟨wc, hec, hmc, _, _⟩ := copyCtor_models v lv hmv
  obtain ⟨hmpb, _, _⟩ := popBack_models v lv hmv
  obtain ⟨hwf3, _, _, _⟩ := erase_models v lv p hmv v3 herase
  obtain ⟨wr, her2, hwfr, _, _⟩ := resize_models v lv n hmv
  obtain ⟨wv, hev, hmrv, _, _, _, _⟩ := reserve_models v lv n hmv
  refine ⟨hwb v ⟨lv, hmv⟩, hwb _ ⟨[], 0, rfl, rfl⟩,
    hwb _ ⟨_, mkSized_models n⟩, ⟨wc, hec, hwb wc ⟨lv, hmc⟩⟩,
    hwb _ ⟨lv, hmv⟩, hwb _ ⟨[], 0, rfl, rfl⟩,
    ⟨we, hee, hwb we ⟨_, hme⟩⟩,
    ⟨we, by rw [Vector.Insert]; exact hee, hwb we ⟨_, hme⟩⟩, ?_, ?_,
    hwb _ ⟨_, hmpb⟩, hwb v3 hwf3, ⟨wr, her2, hwb wr hwfr⟩,
    ⟨wv, hev, hwb wv ⟨lv, hmrv⟩⟩,
    hwb _ ⟨lr, hmr⟩, hwb _ ⟨lv, hmv⟩, ?_,
    hwb _ ⟨lr, hmr⟩, hwb _ ⟨[], 0, rfl, rfl⟩⟩
  · obtain ⟨wb, heb, hmb, _, _⟩ :=
      emplace_models v lv v.size x hmv (le_refl _)
    exact ⟨wb, by rw [Vector.PushBack, Vector.EmplaceBack]; exact heb,
      hwb wb ⟨_, hmb⟩⟩
  · obtain ⟨wb, heb, hmb, _, _⟩ :=
      emplace_models v lv v.size x hmv (le_refl _)
    exact ⟨wb, by rw [Vector.EmplaceBack]; exact heb, hwb wb ⟨_, hmb⟩⟩
  · cases b with
    | true => exact ⟨v, rfl, hwb v ⟨lv, hmv⟩⟩
    | false =>
      obtain ⟨wa, hea, hma, _, _⟩ :=
        copyAssignNonSelf_models v rhs lv lr hmv hmr
      exact ⟨wa, hea, hwb wa ⟨lr, hma⟩⟩

/-- Witness for `size_le_capacity_invariant` on a size-2, capacity-3 vector
    and a size-1, capacity-1 second operand, projected to its first
    conjunct. -/
theorem size_le_capacity_invariant_witness :
    (⟨⟨[some 1, some 2, none]⟩, 2⟩ : Vector Nat).WF ∧
    (⟨⟨[some 1, some 2, none]⟩, 2⟩ : Vector Nat).Size ≤
      (⟨⟨[some 1, some 2, none]⟩, 2⟩ : Vector Nat).Capacity :=
  (size_le_capacity_invariant ⟨⟨[some 1, some 2, none]⟩, 2⟩ ⟨⟨[some 9]⟩, 1⟩
    [1, 2] [9] 5 0 2 false ⟨⟨[some 2, none, none]⟩, 1⟩ ⟨1, rfl, rfl⟩
    ⟨0, rfl, rfl⟩ (by decide) (by decide)).1

end CppVec
